import Mathlib

/-!
# CryptoTrack back end: provider adapter, cache-aside handlers, persistent store

A shallow embedding of `crypto_track/back_end` (`coinGeckoService.js`, `database.js`,
`index.js`, `cache.js`).

Modelling conventions.

* JavaScript values are the inductive `JSVal`.  Numbers are `JSNum`: exact rationals plus
  `NaN` and the two infinities (binary rounding of doubles is not represented, `-0` is `0`).
* An `async` function that may reject is a function into `Except JSError _`.
* Everything outside the process (the upstream HTTP call, the Redis server, the database
  server) is an explicit input: the outcome of the HTTP call is an `AxiosResult`, mid-call
  failures of Redis and of the database are given by the fields of `Env`, the contents of
  Redis and of the table are the `World`.
* Builtins of the language and of the servers that the source calls but does not define
  (`JSON.stringify`, `JSON.parse`, `String.prototype.toUpperCase`, `ORDER BY`) are the
  fields of `Platform`; theorems hold for every platform.
* `console.log` / `console.error` have no effect on any value and are omitted.
-/

namespace CryptoTrack

/-! ## JavaScript values -/

/-- JavaScript numbers: `NaN`, the infinities, and finite values kept as exact rationals. -/
inductive JSNum where
  | nan
  | inf (negative : Bool)
  | fin (q : ℚ)
deriving DecidableEq

/-- JavaScript values as they occur in this program: JSON data, `undefined`, and `Date`
objects (the driver returns TIMESTAMP columns as dates).  An object is its list of own
properties in insertion order. -/
inductive JSVal where
  | undefined
  | null
  | bool (b : Bool)
  | num (n : JSNum)
  | str (s : String)
  | date (t : Nat)
  | arr (items : List JSVal)
  | obj (fields : List (String × JSVal))

instance : Inhabited JSVal := ⟨JSVal.undefined⟩

/-- A thrown JavaScript error: `message`, and the `code` and `response` that axios errors
carry. -/
structure JSError where
  message : String
  code : Option String := none
  response : Option (Nat × JSVal) := none

/-- The `TypeError` raised by reading a property of `undefined`/`null` or by calling
something that is not a function. -/
def typeError (what : String) : JSError :=
  { message := "TypeError: " ++ what }

/-- The number literal `0`. -/
def zero : JSVal := JSVal.num (JSNum.fin 0)

/-- ToBoolean: `undefined`, `null`, `false`, `0`, `NaN` and the empty string are falsy. -/
def JSVal.truthy : JSVal → Bool
  | .undefined => false
  | .null => false
  | .bool b => b
  | .num .nan => false
  | .num (.inf _) => true
  | .num (.fin q) => decide (q ≠ 0)
  | .str s => decide (s ≠ "")
  | .date _ => true
  | .arr _ => true
  | .obj _ => true

/-- The operator `a || b`. -/
def JSVal.or (a b : JSVal) : JSVal :=
  if a.truthy then a else b

/-- Own-property lookup in a field list; a missing key reads as `undefined`. -/
def lookupField (k : String) : List (String × JSVal) → JSVal
  | [] => JSVal.undefined
  | (k2, v) :: rest => if k2 = k then v else lookupField k rest

/-- Property read `v.k` for the keys this program reads (none of them is defined on the
prototypes of strings, numbers, booleans, arrays or dates): it throws on `undefined` and
`null`, returns the own property of an object, and `undefined` otherwise. -/
def JSVal.prop (v : JSVal) (k : String) : Except JSError JSVal :=
  match v with
  | .undefined => .error (typeError ("cannot read " ++ k ++ " of undefined"))
  | .null => .error (typeError ("cannot read " ++ k ++ " of null"))
  | .obj fields => .ok (lookupField k fields)
  | _ => .ok JSVal.undefined

/-! ## Behaviour taken as given -/

/-- One row of table `cryptocurrencies` as the driver hands it to JavaScript.  The key
column is a string; the other data columns hold whatever encoding the driver uses
(number, decimal string, `null`); the two TIMESTAMP columns are points in time. -/
structure Row where
  id : String
  name : JSVal
  symbol : JSVal
  current_price : JSVal
  market_cap : JSVal
  total_volume : JSVal
  price_change_percentage_24h : JSVal
  image : JSVal
  last_updated : Nat
  created_at : Nat

/-- Deterministic behaviour of the language runtime, the database server and the process
configuration that the source relies on but does not define. -/
structure Platform where
  /-- The value of `parseInt(process.env.CACHE_TTL)`; `none` when it is `NaN`. -/
  ttlVar : Option Int
  /-- The function `JSON.stringify`. -/
  stringify : JSVal → String
  /-- The function `JSON.parse`; it throws on malformed text. -/
  parse : String → Except JSError JSVal
  /-- ToNumber on strings, arrays and objects (the cases of `Number(v)` not fixed below). -/
  coerceNumber : JSVal → JSNum
  /-- The key the server files a bound `id` under when the value is not a string; `none`
  when the statement is rejected. -/
  coerceKey : JSVal → Option String
  /-- The order in which the server returns rows for `ORDER BY market_cap DESC`. -/
  orderByMarketCapDesc : List Row → List Row
  /-- The method `String.prototype.toUpperCase` (the full Unicode case mapping of the
  language, which may change the length of a string). -/
  upperCase : String → String

/-- The function `Number(v)`. -/
def toNumber (p : Platform) (v : JSVal) : JSNum :=
  match v with
  | .undefined => JSNum.nan
  | .null => JSNum.fin 0
  | .bool b => JSNum.fin (if b then 1 else 0)
  | .num n => n
  | .date t => JSNum.fin (1000 * t)
  | other => p.coerceNumber other

/-- The constant `CACHE_TTL = parseInt(process.env.CACHE_TTL) || 60`. -/
def CACHE_TTL (p : Platform) : Int :=
  match p.ttlVar with
  | some n => if n = 0 then 60 else n
  | none => 60

/-- The method call `v.toUpperCase()`: defined on strings only, where it is the case
mapping of the language; on any other JSON value the call throws. -/
def toUpperCase (p : Platform) (v : JSVal) : Except JSError JSVal :=
  match v with
  | .str s => .ok (JSVal.str (p.upperCase s))
  | _ => .error (typeError "toUpperCase is not a function")

/-- The method `xs.map(f)` of an array, for a callback that may throw: the first throw
aborts the whole call. -/
def arrayMap (f : JSVal → Except JSError JSVal) : List JSVal → Except JSError (List JSVal)
  | [] => .ok []
  | x :: rest =>
    match f x with
    | .error e => .error e
    | .ok y =>
      match arrayMap f rest with
      | .error e => .error e
      | .ok ys => .ok (y :: ys)

/-! ## coinGeckoService.js -/

/-- The constant `CRYPTO_IDS`. -/
def CRYPTO_IDS : List String := ["bitcoin", "ethereum", "litecoin", "cardano", "solana"]

/-- Outcome of `axios.get(url, {params, timeout: 10000})`: the promise rejects (timeout,
network error, status outside 2xx) or resolves with a response `{status, data}`. -/
inductive AxiosResult where
  | rejected (error : JSError)
  | resolved (status : Nat) (data : JSVal)

/-- A finite number literal. -/
def lit (q : ℚ) : JSVal := JSVal.num (JSNum.fin q)

/-- One object literal of the record shape built in `coinGeckoService.js`. -/
def record (id name symbol current_price market_cap total_volume pct image : JSVal) : JSVal :=
  JSVal.obj
    [("id", id), ("name", name), ("symbol", symbol), ("current_price", current_price),
     ("market_cap", market_cap), ("total_volume", total_volume),
     ("price_change_percentage_24h", pct), ("image", image)]

/-- The method `getMockData()`: the hardcoded fallback list. -/
def getMockData : List JSVal :=
  [ record (.str "bitcoin") (.str "Bitcoin") (.str "BTC") (lit 43250.50) (lit 847250000000)
      (lit 23450000000) (lit 2.45)
      (.str "https://assets.coingecko.com/coins/images/1/large/bitcoin.png"),
    record (.str "ethereum") (.str "Ethereum") (.str "ETH") (lit 2650.75) (lit 318750000000)
      (lit 15230000000) (lit (-1.23))
      (.str "https://assets.coingecko.com/coins/images/279/large/ethereum.png"),
    record (.str "litecoin") (.str "Litecoin") (.str "LTC") (lit 72.30) (lit 5350000000)
      (lit 425000000) (lit 0.87)
      (.str "https://assets.coingecko.com/coins/images/2/large/litecoin.png"),
    record (.str "cardano") (.str "Cardano") (.str "ADA") (lit 0.45) (lit 15800000000)
      (lit 320000000) (lit 1.15)
      (.str "https://assets.coingecko.com/coins/images/975/large/cardano.png"),
    record (.str "solana") (.str "Solana") (.str "SOL") (lit 98.50) (lit 42600000000)
      (lit 1250000000) (lit (-0.75))
      (.str "https://assets.coingecko.com/coins/images/4128/large/solana.png") ]

/-- The callback of `response.data.map(crypto => (...))` in `fetchCryptocurrencies`. -/
def mapMarket (p : Platform) (crypto : JSVal) : Except JSError JSVal := do
  let id ← crypto.prop "id"
  let name ← crypto.prop "name"
  let symbol ← crypto.prop "symbol"
  let upper ← toUpperCase p symbol
  let current_price ← crypto.prop "current_price"
  let market_cap ← crypto.prop "market_cap"
  let total_volume ← crypto.prop "total_volume"
  let pct ← crypto.prop "price_change_percentage_24h"
  let image ← crypto.prop "image"
  pure (record id name upper (current_price.or zero) (market_cap.or zero)
    (total_volume.or zero) (pct.or zero) (image.or (JSVal.str "")))

/-- The `try` block of `fetchCryptocurrencies`: await the request, reject any status other
than 200, map the body.  `response.data.map` throws when the body is not an array. -/
def fetchTry (p : Platform) (r : AxiosResult) : Except JSError (List JSVal) :=
  match r with
  | .rejected error => .error error
  | .resolved status data =>
    if status ≠ 200 then
      .error { message := "CoinGecko API error: " ++ toString status }
    else
      match data with
      | .arr items => arrayMap (mapMarket p) items
      | _ => .error (typeError "response.data.map is not a function")

/-- The method `fetchCryptocurrencies()`: the `try` block, and a `catch` that logs and
returns `getMockData()`. -/
def fetchCryptocurrencies (p : Platform) (r : AxiosResult) : Except JSError (List JSVal) :=
  match fetchTry p r with
  | .ok cryptoData => .ok cryptoData
  | .error _ => .ok getMockData

/-- A market object the mapping callback accepts: not `undefined`/`null`, and its `symbol`
is a string. -/
def mappableMarket (crypto : JSVal) : Bool :=
  match crypto with
  | .undefined => false
  | .null => false
  | .obj fields =>
    match lookupField "symbol" fields with
    | .str _ => true
    | _ => false
  | _ => false

/-- A response body that can be mapped: an array of mappable market objects. -/
def mappableBody (data : JSVal) : Bool :=
  match data with
  | .arr items => items.all mappableMarket
  | _ => false

/-- The failure outcomes of the upstream call: a rejected request (timeout, network error,
error status), a status other than 200, or a 200 body that cannot be mapped. -/
def upstreamFailed (r : AxiosResult) : Bool :=
  match r with
  | .rejected _ => true
  | .resolved status data => decide (status ≠ 200) || !(mappableBody data)

/-! ## The outside world during one run -/

/-- What the outside world does during one run of a handler. -/
structure Env where
  /-- The clock, in seconds. -/
  now : Nat
  /-- Outcome of the request to the provider. -/
  upstream : AxiosResult
  /-- When `some msg`, `redisClient.get` rejects with that message. -/
  cacheGetError : Option String
  /-- When `some msg`, `redisClient.setEx` rejects with that message. -/
  cacheSetError : Option String
  /-- When `some msg`, the SELECT of this run (connection or statement) rejects. -/
  dbReadError : Option String
  /-- When `some msg` at `i`, the `i`-th `upsertCrypto` call of this run (connection or
  statement) rejects. -/
  dbWriteError : Nat → Option String

/-! ## cache.js: the Redis client -/

/-- One key of the Redis server, its value and the time at which it expires. -/
structure CacheEntry where
  key : String
  value : String
  expiresAt : Nat

/-- The object `redisClient`: whether its connection is open, and the keys the server
holds. -/
structure Redis where
  isOpen : Bool
  entries : List CacheEntry

/-- The value the server holds under `key` at time `now`, if it has not expired. -/
def Redis.lookup (r : Redis) (now : Nat) (key : String) : Option String :=
  (r.entries.find? (fun e => e.key == key && decide (now < e.expiresAt))).map (·.value)

/-- The call `redisClient.get(key)`: the stored string, or `null` (here `none`). -/
def redisGet (env : Env) (r : Redis) (key : String) : Except JSError (Option String) :=
  match env.cacheGetError with
  | some msg => .error { message := msg }
  | none => .ok (r.lookup env.now key)

/-- The call `redisClient.setEx(key, seconds, value)`.  The server rejects an expiry that
is not positive; a rejected call leaves the server unchanged. -/
def redisSetEx (env : Env) (r : Redis) (key : String) (seconds : Int) (value : String) :
    Except JSError Redis :=
  match env.cacheSetError with
  | some msg => .error { message := msg }
  | none =>
    if seconds ≤ 0 then .error { message := "ERR invalid expire time in setex command" }
    else .ok { r with entries :=
      { key := key, value := value, expiresAt := env.now + seconds.toNat } ::
        r.entries.filter (fun e => e.key != key) }

/-- The cache-read block shared by both GET handlers (index.js 54-64 and 99-109): the
parsed cached payload when the client is open, the call succeeds, the string is truthy
and parses; otherwise the handler goes on. -/
def cachedPayload (p : Platform) (env : Env) (r : Redis) (cacheKey : String) : Option JSVal :=
  if r.isOpen then
    match redisGet env r cacheKey with
    | .error _ => none
    | .ok none => none
    | .ok (some cachedData) =>
      if cachedData ≠ "" then
        match p.parse cachedData with
        | .ok payload => some payload
        | .error _ => none
      else none
  else none

/-- The cache-write block shared by the handlers and `updateCryptoData` (index.js 70-76,
121-127, 167-173): `setEx` under `CACHE_TTL` when the client is open, errors swallowed. -/
def cacheStore (p : Platform) (env : Env) (r : Redis) (cacheKey : String) (payload : JSVal) :
    Redis :=
  if r.isOpen then
    match redisSetEx env r cacheKey (CACHE_TTL p) (p.stringify payload) with
    | .ok r2 => r2
    | .error _ => r
  else r

/-! ## database.js -/

/-- The row as the JavaScript object the driver returns for `SELECT *`. -/
def Row.toJS (r : Row) : JSVal :=
  JSVal.obj
    [("id", JSVal.str r.id), ("name", r.name), ("symbol", r.symbol),
     ("current_price", r.current_price), ("market_cap", r.market_cap),
     ("total_volume", r.total_volume),
     ("price_change_percentage_24h", r.price_change_percentage_24h), ("image", r.image),
     ("last_updated", JSVal.date r.last_updated), ("created_at", JSVal.date r.created_at)]

/-- Defining property `k: v` in an object literal after a spread: an existing key keeps
its position and takes the new value, a new key is appended. -/
def setField (k : String) (v : JSVal) : List (String × JSVal) → List (String × JSVal)
  | [] => [(k, v)]
  | (k2, v2) :: rest => if k2 = k then (k, v) :: rest else (k2, v2) :: setField k v rest

/-- The object literal `{...r, current_price: Number(r.current_price), market_cap:
Number(r.market_cap), total_volume: Number(r.total_volume), price_change_percentage_24h:
Number(r.price_change_percentage_24h)}` of `getAllCryptos` and `getCryptoById`. -/
def numericFields (p : Platform) (r : JSVal) : JSVal :=
  match r with
  | .obj fields =>
    JSVal.obj
      (setField "price_change_percentage_24h"
        (JSVal.num (toNumber p (lookupField "price_change_percentage_24h" fields)))
        (setField "total_volume" (JSVal.num (toNumber p (lookupField "total_volume" fields)))
          (setField "market_cap" (JSVal.num (toNumber p (lookupField "market_cap" fields)))
            (setField "current_price"
              (JSVal.num (toNumber p (lookupField "current_price" fields))) fields))))
  | other => other

/-- The key the table files a bound `id` value under: a string is its own key. -/
def bindKey (p : Platform) (id : JSVal) : Option String :=
  match id with
  | .str s => some s
  | other => p.coerceKey other

/-- The statement of `upsertCrypto` on the table: `INSERT ... ON DUPLICATE KEY UPDATE
current_price, market_cap, total_volume, price_change_percentage_24h, image, last_updated`.
A row with the key exists: those six columns are assigned.  Otherwise a row is inserted,
`last_updated` and `created_at` taking their default `CURRENT_TIMESTAMP`. -/
def execUpsert (now : Nat) (key : String)
    (name symbol current_price market_cap total_volume pct image : JSVal)
    (store : List Row) : List Row :=
  if store.any (fun r => r.id == key) then
    store.map (fun r =>
      if r.id == key then
        { r with
          current_price := current_price, market_cap := market_cap,
          total_volume := total_volume, price_change_percentage_24h := pct,
          image := image, last_updated := now }
      else r)
  else
    store ++
      [{ id := key, name := name, symbol := symbol, current_price := current_price,
         market_cap := market_cap, total_volume := total_volume,
         price_change_percentage_24h := pct, image := image,
         last_updated := now, created_at := now }]

/-- The function `upsertCrypto(cryptoData)`, run at time `now` on table `store`;
`failure` is the rejection of the connection or of the statement, if any (also a
statement the driver or the server refuses for the values bound to it).  A rejected call
leaves the table as it was and rethrows.  Values are stored as bound: rounding and length
limits of the column types are not represented. -/
def upsertCrypto (p : Platform) (failure : Option String) (now : Nat) (store : List Row)
    (cryptoData : JSVal) : Except JSError (List Row) :=
  match failure with
  | some msg => .error { message := msg }
  | none => do
    let id ← cryptoData.prop "id"
    let name ← cryptoData.prop "name"
    let symbol ← cryptoData.prop "symbol"
    let current_price ← cryptoData.prop "current_price"
    let market_cap ← cryptoData.prop "market_cap"
    let total_volume ← cryptoData.prop "total_volume"
    let pct ← cryptoData.prop "price_change_percentage_24h"
    let image ← cryptoData.prop "image"
    match bindKey p id with
    | none => .error { message := "statement rejected: id" }
    | some key =>
      pure (execUpsert now key name symbol (current_price.or zero) (market_cap.or zero)
        (total_volume.or zero) (pct.or zero) image store)

/-- The function `getAllCryptos()`: every row in the order the server returns them, the
four numeric columns passed through `Number`. -/
def getAllCryptos (p : Platform) (failure : Option String) (store : List Row) :
    Except JSError (List JSVal) :=
  match failure with
  | some msg => .error { message := msg }
  | none => .ok ((p.orderByMarketCapDesc store).map (fun r => numericFields p r.toJS))

/-- The function `getCryptoById(id)`: `null` (here `none`) when the SELECT returns no
row, otherwise the first row with its numeric columns passed through `Number`. -/
def getCryptoById (p : Platform) (failure : Option String) (store : List Row) (id : String) :
    Except JSError (Option JSVal) :=
  match failure with
  | some msg => .error { message := msg }
  | none =>
    match (store.filter (fun r => r.id == id)).head? with
    | none => .ok none
    | some crypto => .ok (some (numericFields p crypto.toJS))

/-! ## index.js -/

/-- An HTTP response: status code and JSON body. -/
structure Response where
  status : Nat
  body : JSVal

/-- The state outside a handler run: the Redis client and the table. -/
structure World where
  redis : Redis
  store : List Row

/-- The call `res.json(body)`. -/
def json (body : JSVal) : Response :=
  { status := 200, body := body }

/-- The call `res.status(500).json({error, details: error.message})`. -/
def serverError (error : String) (e : JSError) : Response :=
  { status := 500,
    body := JSVal.obj [("error", JSVal.str error), ("details", JSVal.str e.message)] }

/-- The expression `await Promise.all(cryptoData.map(crypto => upsertCrypto(crypto)))`,
from call number `i` on: every call is started, a rejected call does not stop the others,
and the result is the rejection of lowest index, if any, with the table after all the
calls that went through (calls are taken in array order). -/
def persistFrom (p : Platform) (env : Env) (i : Nat) (store : List Row) :
    List JSVal → Option JSError × List Row
  | [] => (none, store)
  | crypto :: rest =>
    match upsertCrypto p (env.dbWriteError i) env.now store crypto with
    | .ok store2 => persistFrom p env (i + 1) store2 rest
    | .error e => (some e, (persistFrom p env (i + 1) store rest).2)

/-- The whole `Promise.all` of one run. -/
def persistAll (p : Platform) (env : Env) (store : List Row) (cryptoData : List JSVal) :
    Option JSError × List Row :=
  persistFrom p env 0 store cryptoData

/-- The handler of `GET /api/cryptos`. -/
def getCryptos (p : Platform) (env : Env) (w : World) : Response × World :=
  match cachedPayload p env w.redis "cryptos" with
  | some payload => (json payload, w)
  | none =>
    match fetchCryptocurrencies p env.upstream with
    | .error error => (serverError "Failed to fetch cryptocurrency data" error, w)
    | .ok cryptoData =>
      let redis := cacheStore p env w.redis "cryptos" (JSVal.arr cryptoData)
      match persistAll p env w.store cryptoData with
      | (some error, store) =>
        (serverError "Failed to fetch cryptocurrency data" error,
          { redis := redis, store := store })
      | (none, store) => (json (JSVal.arr cryptoData), { redis := redis, store := store })

/-- The handler of `GET /api/cryptos/:id`. -/
def getCrypto (p : Platform) (env : Env) (w : World) (id : String) : Response × World :=
  match cachedPayload p env w.redis ("crypto:" ++ id) with
  | some payload => (json payload, w)
  | none =>
    match getCryptoById p env.dbReadError w.store id with
    | .error error => (serverError "Failed to fetch cryptocurrency" error, w)
    | .ok none =>
      ({ status := 404,
         body := JSVal.obj
           [("error", JSVal.str "Cryptocurrency not found"), ("id", JSVal.str id)] }, w)
    | .ok (some crypto) =>
      (json crypto,
        { w with redis := cacheStore p env w.redis ("crypto:" ++ id) crypto })

/-- The function `updateCryptoData()`: the number of records fetched, or the rethrown
error of the upserts. -/
def updateCryptoData (p : Platform) (env : Env) (w : World) : Except JSError Nat × World :=
  match fetchCryptocurrencies p env.upstream with
  | .error error => (.error error, w)
  | .ok cryptoData =>
    let redis := cacheStore p env w.redis "cryptos" (JSVal.arr cryptoData)
    match persistAll p env w.store cryptoData with
    | (some error, store) => (.error error, { redis := redis, store := store })
    | (none, store) => (.ok cryptoData.length, { redis := redis, store := store })

/-- The handler of `POST /api/cryptos/update`. -/
def postUpdate (p : Platform) (env : Env) (w : World) : Response × World :=
  match updateCryptoData p env w with
  | (.ok count, w2) =>
    (json (JSVal.obj
      [("message", JSVal.str "Cryptocurrency data updated successfully"),
       ("updatedCount", JSVal.num (JSNum.fin count))]), w2)
  | (.error error, w2) => (serverError "Failed to update cryptocurrency data" error, w2)

/-! ## cache.js: the retry strategy -/

/-- The argument of `retry_strategy`: the last connection error if any, the time spent
retrying in milliseconds, and the number of the attempt. -/
structure RetryOptions where
  error : Option JSError
  total_retry_time : Int
  attempt : Int

/-- What `retry_strategy` returns: an `Error`, `undefined`, or a delay in milliseconds. -/
inductive RetryDecision where
  | error (e : JSError)
  | undefined
  | delay (ms : Int)

/-- The function `retry_strategy` given to `redis.createClient`. -/
def retry_strategy (options : RetryOptions) : RetryDecision :=
  if (match options.error with
      | some e => decide (e.code = some "ECONNREFUSED")
      | none => false) = true then
    .error { message := "Redis server refused connection" }
  else if options.total_retry_time > 1000 * 60 * 60 then
    .error { message := "Retry time exhausted" }
  else if options.attempt > 3 then
    .undefined
  else
    .delay (min (options.attempt * 100) 3000)

/-! ## Server start -/

/-- What the outside world does while the server boots, besides the first data update. -/
structure BootEnv where
  /-- When `some msg`, `pool.getConnection()` in `testConnection` rejects. -/
  connectError : Option String
  /-- When `some msg`, the connection or the CREATE TABLE of `initializeDatabase` rejects. -/
  initError : Option String
  /-- When `some msg`, the ping of `coinGeckoService.testConnection` fails. -/
  pingError : Option String

/-- The function `testConnection()` of database.js: `true` when a connection is obtained,
`false` when that throws. -/
def testConnection (b : BootEnv) : Bool :=
  match b.connectError with
  | some _ => false
  | none => true

/-- The function `initializeDatabase()`: creates the table, rethrows any error. -/
def initializeDatabase (b : BootEnv) : Except JSError Unit :=
  match b.initError with
  | some msg => .error { message := msg }
  | none => .ok ()

/-- The method `testConnection()` of `CoinGeckoService`: it never throws. -/
def CoinGeckoService.testConnection (b : BootEnv) : Bool :=
  match b.pingError with
  | some _ => false
  | none => true

/-- How `startServer` ends: the server listens, or the process exits with a code. -/
inductive BootOutcome where
  | listening
  | exited (code : Nat)

/-- The function `startServer()`: any error thrown in its `try` block is caught and ends
the process with `process.exit(1)`.  The Redis check reads `redisClient.isOpen` once (the
source comment speaks of waiting with a timeout; the code neither waits nor times out)
and only chooses a log line.  Registering the schedule and calling `app.listen` are taken
not to throw. -/
def startServer (p : Platform) (b : BootEnv) (env : Env) (w : World) : BootOutcome × World :=
  if testConnection b = false then (.exited 1, w)
  else
    match initializeDatabase b with
    | .error _ => (.exited 1, w)
    | .ok _ =>
      let _apiReachable := CoinGeckoService.testConnection b
      match updateCryptoData p env w with
      | (.error _, w2) => (.exited 1, w2)
      | (.ok _, w2) => (.listening, w2)

/-! ## Vocabulary of the statements -/

/-- The value read for `cryptoData.k` when the read does not throw. -/
def JSVal.field (v : JSVal) (k : String) : JSVal :=
  match v.prop k with
  | .ok x => x
  | .error _ => JSVal.undefined

/-- The table key of a record: the key its `id` is filed under. -/
def recordKey (p : Platform) (cryptoData : JSVal) : Option String :=
  match cryptoData.prop "id" with
  | .ok id => bindKey p id
  | .error _ => none

/-- The primary-key constraint of the table: no two rows share an `id`. -/
def StoreWF (store : List Row) : Prop :=
  (store.map (fun r => r.id)).Nodup

/-- The rows of the table with a given `id`. -/
def rowsWithId (store : List Row) (id : String) : List Row :=
  store.filter (fun r => r.id == id)

/-- The data columns of a row (all columns but the two timestamps). -/
def Row.data (r : Row) : String × JSVal × JSVal × JSVal × JSVal × JSVal × JSVal × JSVal :=
  (r.id, r.name, r.symbol, r.current_price, r.market_cap, r.total_volume,
    r.price_change_percentage_24h, r.image)

/-- The row holds what an upsert of the record `crypto` at time `now` assigns: the four
numeric columns (defaulted to `0`), `image` and `last_updated`. -/
def Row.UpsertedFrom (row : Row) (crypto : JSVal) (now : Nat) : Prop :=
  row.current_price = (crypto.field "current_price").or zero ∧
  row.market_cap = (crypto.field "market_cap").or zero ∧
  row.total_volume = (crypto.field "total_volume").or zero ∧
  row.price_change_percentage_24h = (crypto.field "price_change_percentage_24h").or zero ∧
  row.image = crypto.field "image" ∧
  row.last_updated = now

/-- The test `typeof v === "number"`. -/
def JSVal.isNumber : JSVal → Bool
  | .num _ => true
  | _ => false

/-- What the numeric read-back promises of the record `rec` returned for `row`: the four
numeric columns are numbers, every other column is the one of the row. -/
def ReadBack (row : Row) (rec : JSVal) : Prop :=
  (rec.field "current_price").isNumber = true ∧
  (rec.field "market_cap").isNumber = true ∧
  (rec.field "total_volume").isNumber = true ∧
  (rec.field "price_change_percentage_24h").isNumber = true ∧
  rec.field "id" = JSVal.str row.id ∧
  rec.field "name" = row.name ∧
  rec.field "symbol" = row.symbol ∧
  rec.field "image" = row.image ∧
  rec.field "last_updated" = JSVal.date row.last_updated ∧
  rec.field "created_at" = JSVal.date row.created_at

/-- The same world with the Redis connection not open. -/
def World.cacheClosed (w : World) : World :=
  { w with redis := { w.redis with isOpen := false } }

/-- What a client and the table see of a handler run: the response and the rows. -/
def outcome (r : Response × World) : Response × List Row :=
  (r.1, r.2.store)

/-- The body `{error: "Cryptocurrency not found", id}` with status 404. -/
def notFound (id : String) : Response :=
  { status := 404,
    body := JSVal.obj [("error", JSVal.str "Cryptocurrency not found"), ("id", JSVal.str id)] }

/-- The text `res.json(body)` puts on the wire: the JSON serialisation of the body. -/
def wire (p : Platform) (r : Response) : String :=
  p.stringify r.body

/-- What the mapping promises of one numeric field: the provider's number when there is
one, `0` when the field is missing (`undefined` or `null`). -/
def NumericFrom (provider result : JSVal) : Prop :=
  (∀ n, provider = JSVal.num n → n ≠ JSNum.nan → result = provider) ∧
  (provider = JSVal.undefined ∨ provider = JSVal.null → result = zero)

/-- What the mapping promises of the record `r` built from the market object `crypto`:
`id` and `name` copied, `symbol` upper-cased by the case mapping of the language, numeric
fields kept or defaulted to `0`, `image` kept or defaulted to the empty string. -/
def MappedFrom (p : Platform) (crypto r : JSVal) : Prop :=
  r.field "id" = crypto.field "id" ∧
  r.field "name" = crypto.field "name" ∧
  (∃ s, crypto.field "symbol" = JSVal.str s ∧
    r.field "symbol" = JSVal.str (p.upperCase s)) ∧
  NumericFrom (crypto.field "current_price") (r.field "current_price") ∧
  NumericFrom (crypto.field "market_cap") (r.field "market_cap") ∧
  NumericFrom (crypto.field "total_volume") (r.field "total_volume") ∧
  NumericFrom (crypto.field "price_change_percentage_24h")
    (r.field "price_change_percentage_24h") ∧
  ((∀ s, crypto.field "image" = JSVal.str s → s ≠ "" → r.field "image" = JSVal.str s) ∧
   (crypto.field "image" = JSVal.undefined ∨ crypto.field "image" = JSVal.null ∨
     crypto.field "image" = JSVal.str "" → r.field "image" = JSVal.str ""))

/-- The last connection error says the server refused the connection. -/
def RetryOptions.refused (options : RetryOptions) : Prop :=
  ∃ e, options.error = some e ∧ e.code = some "ECONNREFUSED"

/-- The `id` of a record when it is a string. -/
def recordId (r : JSVal) : Option String :=
  match r.field "id" with
  | .str s => some s
  | _ => none

/-- The `symbol` of a record is a non-empty string of upper-case letters. -/
def upperCaseSymbol (r : JSVal) : Bool :=
  match r.field "symbol" with
  | .str s => s.toList.all Char.isUpper && !s.isEmpty
  | _ => false

/-- The field `k` of a record is a finite number that is not negative. -/
def nonNegativeField (r : JSVal) (k : String) : Bool :=
  match r.field k with
  | .num (.fin q) => decide (0 ≤ q)
  | _ => false

/-- One thing the back end does to the world: a run of a handler or of
`updateCryptoData` (manual, scheduled, or at start) under any behaviour of the outside,
the Redis connection opening or closing, or Redis dropping keys (expiry, eviction). -/
inductive Step (p : Platform) : World → World → Prop where
  | list (env : Env) (w : World) : Step p w (getCryptos p env w).2
  | byId (env : Env) (w : World) (id : String) : Step p w (getCrypto p env w id).2
  | update (env : Env) (w : World) : Step p w (updateCryptoData p env w).2
  | connection (isOpen : Bool) (w : World) :
      Step p w { w with redis := { w.redis with isOpen := isOpen } }
  | drop (keep : CacheEntry → Bool) (w : World) :
      Step p w { w with redis := { w.redis with entries := w.redis.entries.filter keep } }

/-- The states the back end reaches from an empty cache and any table. -/
inductive Reachable (p : Platform) : World → Prop where
  | start (isOpen : Bool) (store : List Row) :
      Reachable p { redis := { isOpen := isOpen, entries := [] }, store := store }
  | step (w w2 : World) : Reachable p w → Step p w w2 → Reachable p w2

/-- The by-id cache invariant: every entry under a key `crypto:{id}` belongs to a row of
the table, and holds the serialisation of a record that `getCryptoById` returned for
that id in a state the back end reached. -/
def CacheInv (p : Platform) (w : World) : Prop :=
  ∀ e, e ∈ w.redis.entries → ∀ id, e.key = "crypto:" ++ id →
    (∃ row, row ∈ w.store ∧ row.id = id) ∧
    (∃ w0 failure crypto, Reachable p w0 ∧
      getCryptoById p failure w0.store id = .ok (some crypto) ∧
      e.value = p.stringify crypto)

/-! ## Sample inputs -/

/-- A record for `bitcoin` whose name, symbol and price differ from the fallback data. -/
def renamedBitcoin : JSVal :=
  record (.str "bitcoin") (.str "Bitcoin Core") (.str "XBT") (lit 50000) (lit 900000000000)
    (lit 30000000000) (lit 5) (.str "xbt.png")

/-- The JSON text of the one-record list `[renamedBitcoin]`. -/
def livePayloadText : String :=
  "[\x7b\"id\":\"bitcoin\",\"name\":\"Bitcoin Core\",\"symbol\":\"XBT\"," ++
  "\"current_price\":50000,\"market_cap\":900000000000,\"total_volume\":30000000000," ++
  "\"price_change_percentage_24h\":5,\"image\":\"xbt.png\"\x7d]"

/-- The JSON text of an object with the single property `id: "ghost"`. -/
def ghostText : String :=
  "\x7b\"id\":\"ghost\"\x7d"

/-- A platform for the examples: default TTL, and `JSON.parse` given on the texts the
examples find in the cache.  No example reads back a text written by `stringify`, which
is a stand-in here.  The symbols of the examples consist of ASCII letters, on which the
case mapping of the language is `String.toUpper`. -/
def samplePlatform : Platform :=
  { ttlVar := none
    stringify := fun v =>
      match v with
      | .arr [] => "[]"
      | _ => "[...]"
    parse := fun s =>
      if s = "[]" then .ok (JSVal.arr [])
      else if s = livePayloadText then .ok (JSVal.arr [renamedBitcoin])
      else if s = ghostText then .ok (JSVal.obj [("id", JSVal.str "ghost")])
      else .error { message := "Unexpected token" }
    coerceNumber := fun _ => JSNum.nan
    coerceKey := fun _ => none
    orderByMarketCapDesc := fun rows => rows
    upperCase := String.toUpper }

/-- A run at time 100 in which the provider times out and nothing else fails. -/
def quietEnv : Env :=
  { now := 100
    upstream := .rejected { message := "timeout of 10000ms exceeded", code := some "ECONNABORTED" }
    cacheGetError := none
    cacheSetError := none
    dbReadError := none
    dbWriteError := fun _ => none }

/-- A run in which the database is unreachable. -/
def dbDownEnv : Env :=
  { quietEnv with
    dbReadError := some "connect ECONNREFUSED"
    dbWriteError := fun _ => some "connect ECONNREFUSED" }

/-- A run in which the third upsert alone is rejected. -/
def oneUpsertFailsEnv : Env :=
  { quietEnv with dbWriteError := fun i => if i = 2 then some "Lock wait timeout exceeded" else none }

/-- A run in which both Redis calls reject. -/
def cacheErrorEnv : Env :=
  { quietEnv with cacheGetError := some "Socket closed unexpectedly"
                  cacheSetError := some "Socket closed unexpectedly" }

/-- A run in which the provider answers 200 with the same market object twice. -/
def duplicateEnv : Env :=
  { quietEnv with
    upstream := .resolved 200 (JSVal.arr
      [JSVal.obj [("id", .str "bitcoin"), ("name", .str "Bitcoin"), ("symbol", .str "btc")],
       JSVal.obj [("id", .str "bitcoin"), ("name", .str "Bitcoin"), ("symbol", .str "btc")]]) }

/-- Empty table, Redis not connected. -/
def emptyWorld : World :=
  { redis := { isOpen := false, entries := [] }, store := [] }

/-- Empty table, Redis connected and empty. -/
def openWorld : World :=
  { redis := { isOpen := true, entries := [] }, store := [] }

/-- Empty table, Redis connected and holding a live list payload until time 130. -/
def cachedListWorld : World :=
  { redis :=
      { isOpen := true,
        entries := [{ key := "cryptos", value := livePayloadText, expiresAt := 130 }] },
    store := [] }

/-- Empty table, Redis connected and holding an entry for id `ghost` until time 130. -/
def staleWorld : World :=
  { redis :=
      { isOpen := true,
        entries := [{ key := "crypto:ghost", value := ghostText, expiresAt := 130 }] },
    store := [] }

/-- A stored row for `bitcoin`, inserted at time 10. -/
def bitcoinRow : Row :=
  { id := "bitcoin", name := .str "Bitcoin", symbol := .str "BTC", current_price := lit 43250.50,
    market_cap := lit 847250000000, total_volume := lit 23450000000,
    price_change_percentage_24h := lit 2.45, image := .str "bitcoin.png",
    last_updated := 10, created_at := 10 }

/-- The row that `renamedBitcoin` leaves in a table it was first inserted into at time
100, after an upsert at time `t`. -/
def renamedRow (t : Nat) : Row :=
  { id := "bitcoin", name := .str "Bitcoin Core", symbol := .str "XBT", current_price := lit 50000,
    market_cap := lit 900000000000, total_volume := lit 30000000000,
    price_change_percentage_24h := lit 5, image := .str "xbt.png",
    last_updated := t, created_at := 100 }

/-- A row as the driver returns it with DECIMAL columns as decimal strings, a BIGINT as a
number and a NULL volume. -/
def encodedRow : Row :=
  { id := "bitcoin", name := .str "Bitcoin", symbol := .str "BTC",
    current_price := .str "43250.50000000", market_cap := lit 847250000000,
    total_volume := .null, price_change_percentage_24h := .str "2.4500",
    image := .str "bitcoin.png", last_updated := 10, created_at := 10 }

/-- A string literal of JSON: quotes and backslashes escaped. -/
def quoteText (s : String) : String :=
  "\"" ++ String.join (s.toList.map (fun c =>
    if c = '"' then "\\\"" else if c = '\\' then "\\\\" else String.singleton c)) ++ "\""

/-- The decimal digits of `r / d` after the point, at most `fuel` of them. -/
def fractionDigits : Nat → Nat → Nat → List Nat
  | 0, _, _ => []
  | fuel + 1, r, d => if r = 0 then [] else (r * 10 / d) :: fractionDigits fuel (r * 10 % d) d

/-- The decimal text of a number; `NaN` and the infinities are written `null`. -/
def numberText : JSNum → String
  | .nan => "null"
  | .inf _ => "null"
  | .fin q =>
    let n := q.num.natAbs
    let whole := toString (n / q.den)
    let frac := fractionDigits 17 (n % q.den) q.den
    (if q.num < 0 then "-" else "") ++ whole ++
      (if frac = [] then "" else "." ++ String.join (frac.map toString))

mutual
/-- A serialiser after `JSON.stringify` for the examples: properties whose value is
`undefined` are left out, `undefined` in an array is written `null`; a date is written
as the quoted number of its clock value. -/
def jsonStringify : JSVal → String
  | .undefined => "null"
  | .null => "null"
  | .bool b => if b then "true" else "false"
  | .num n => numberText n
  | .str s => quoteText s
  | .date t => quoteText (toString t)
  | .arr items => "[" ++ ",".intercalate (stringifyItems items) ++ "]"
  | .obj fields => "\x7b" ++ ",".intercalate (stringifyFields fields) ++ "\x7d"
/-- The texts of the items of an array. -/
def stringifyItems : List JSVal → List String
  | [] => []
  | v :: rest => jsonStringify v :: stringifyItems rest
/-- The texts of the properties of an object. -/
def stringifyFields : List (String × JSVal) → List String
  | [] => []
  | (_, .undefined) :: rest => stringifyFields rest
  | (k, v) :: rest => (quoteText k ++ ":" ++ jsonStringify v) :: stringifyFields rest
end

/-- Reads the characters of a string literal up to the closing quote. -/
def readString : List Char → List Char → Option (String × List Char)
  | _, [] => none
  | acc, '"' :: rest => some (String.mk acc.reverse, rest)
  | acc, '\\' :: c :: rest => readString (c :: acc) rest
  | acc, c :: rest => readString (c :: acc) rest

/-- Reads a run of decimal digits: their value, their count, and the rest. -/
def readDigits : Nat → Nat → List Char → Nat × Nat × List Char
  | value, count, c :: rest =>
    if c.isDigit then readDigits (value * 10 + (c.toNat - 48)) (count + 1) rest
    else (value, count, c :: rest)
  | value, count, [] => (value, count, [])

/-- Reads a number: optional sign, digits, optional fraction. -/
def readNumber (cs : List Char) : Option (ℚ × List Char) :=
  let (negative, cs1) :=
    match cs with
    | '-' :: rest => (true, rest)
    | _ => (false, cs)
  let (whole, count, cs2) := readDigits 0 0 cs1
  if count = 0 then none
  else
    let (q, cs3) : ℚ × List Char :=
      match cs2 with
      | '.' :: rest =>
        let (frac, digits, cs3) := readDigits 0 0 rest
        ((whole : ℚ) + (frac : ℚ) / (10 ^ digits : ℕ), cs3)
      | _ => ((whole : ℚ), cs2)
    some (if negative then -q else q, cs3)

mutual
/-- A reader after `JSON.parse` for the examples (no white space, no exponents, no
Unicode escapes), with a bound on the nesting and length it follows. -/
def readValue : Nat → List Char → Option (JSVal × List Char)
  | 0, _ => none
  | _ + 1, 'n' :: 'u' :: 'l' :: 'l' :: rest => some (JSVal.null, rest)
  | _ + 1, 't' :: 'r' :: 'u' :: 'e' :: rest => some (JSVal.bool true, rest)
  | _ + 1, 'f' :: 'a' :: 'l' :: 's' :: 'e' :: rest => some (JSVal.bool false, rest)
  | _ + 1, '"' :: rest =>
    match readString [] rest with
    | some (s, rest2) => some (JSVal.str s, rest2)
    | none => none
  | _ + 1, '[' :: ']' :: rest => some (JSVal.arr [], rest)
  | fuel + 1, '[' :: rest =>
    match readItems fuel rest with
    | some (items, rest2) => some (JSVal.arr items, rest2)
    | none => none
  | _ + 1, '\x7b' :: '\x7d' :: rest => some (JSVal.obj [], rest)
  | fuel + 1, '\x7b' :: rest =>
    match readFields fuel rest with
    | some (fields, rest2) => some (JSVal.obj fields, rest2)
    | none => none
  | _ + 1, cs =>
    match readNumber cs with
    | some (q, rest) => some (JSVal.num (JSNum.fin q), rest)
    | none => none
/-- Reads the items of an array up to the closing bracket. -/
def readItems : Nat → List Char → Option (List JSVal × List Char)
  | 0, _ => none
  | fuel + 1, cs =>
    match readValue fuel cs with
    | some (v, ',' :: rest) =>
      match readItems fuel rest with
      | some (vs, rest2) => some (v :: vs, rest2)
      | none => none
    | some (v, ']' :: rest) => some ([v], rest)
    | _ => none
/-- Reads the properties of an object up to the closing brace. -/
def readFields : Nat → List Char → Option (List (String × JSVal) × List Char)
  | 0, _ => none
  | fuel + 1, '"' :: cs =>
    match readString [] cs with
    | some (k, ':' :: rest) =>
      match readValue fuel rest with
      | some (v, ',' :: rest2) =>
        match readFields fuel rest2 with
        | some (fs, rest3) => some ((k, v) :: fs, rest3)
        | none => none
      | some (v, '\x7d' :: rest2) => some ([(k, v)], rest2)
      | _ => none
    | _ => none
  | _ + 1, _ => none
end

/-- The whole text read as one JSON value; anything else throws. -/
def jsonParse (text : String) : Except JSError JSVal :=
  match readValue text.length text.toList with
  | some (v, []) => .ok v
  | _ => .error { message := "Unexpected token in JSON" }

/-- A platform for the examples with the serialiser and reader above; the symbols of the
examples consist of ASCII letters, on which the case mapping of the language is
`String.toUpper`. -/
def jsonPlatform : Platform :=
  { ttlVar := none
    stringify := jsonStringify
    parse := jsonParse
    coerceNumber := fun v =>
      match v with
      | .str s =>
        match readNumber s.toList with
        | some (q, []) => JSNum.fin q
        | _ => JSNum.nan
      | _ => JSNum.nan
    coerceKey := fun _ => none
    orderByMarketCapDesc := fun rows => rows
    upperCase := String.toUpper }

/-- The run `quietEnv` at another time. -/
def quietAt (t : Nat) : Env :=
  { quietEnv with now := t }

/-- A run at time 100 in which the provider answers 200 with one market object that has
no `name`; the driver refuses the upsert, whose `name` parameter is `undefined`. -/
def namelessEnv : Env :=
  { quietEnv with
    upstream := .resolved 200 (JSVal.arr
      [JSVal.obj [("id", .str "bitcoin"), ("symbol", .str "btc"),
                  ("current_price", lit 50000)]])
    dbWriteError := fun _ =>
      some "Bind parameters must not contain undefined. To pass SQL NULL specify JS null" }

/-- The record `fetchCryptocurrencies` builds in the run `namelessEnv`. -/
def namelessRecord : JSVal :=
  record (.str "bitcoin") .undefined (.str "BTC") (lit 50000) zero zero zero (.str "")

/-- What `JSON.parse` gives back for the serialisation of `namelessRecord`. -/
def namelessParsed : JSVal :=
  JSVal.obj
    [("id", .str "bitcoin"), ("symbol", .str "BTC"), ("current_price", lit 50000),
     ("market_cap", zero), ("total_volume", zero), ("price_change_percentage_24h", zero),
     ("image", .str "")]

/-- The platform `jsonPlatform` with the case mapping of the language given on one more
string, whose letters are not ASCII and whose upper case is longer. -/
def sharpPlatform : Platform :=
  { jsonPlatform with upperCase := fun s => if s = "ßéx" then "SSÉX" else s.toUpper }

/-- A 200 response with one market object whose symbol is `ßéx`. -/
def sharpResponse : AxiosResult :=
  .resolved 200 (JSVal.arr [JSVal.obj [("id", .str "sharp"), ("symbol", .str "ßéx")]])

/-- A table holding `bitcoinRow`, Redis connected and empty. -/
def bitcoinWorld : World :=
  { redis := { isOpen := true, entries := [] }, store := [bitcoinRow] }

/-- A boot in which every check passes. -/
def quietBoot : BootEnv :=
  { connectError := none, initError := none, pingError := none }

/-! # Theorems -/

/-! ## Provider adapter: the mapping fails exactly on unmappable bodies -/

theorem mapMarket_error_of_not_mappable (p : Platform) (crypto : JSVal)
    (h : mappableMarket crypto = false) : ∃ e, mapMarket p crypto = .error e := by
  cases crypto with
  | obj fields =>
    simp only [mappableMarket] at h
    simp only [mapMarket, JSVal.prop, bind, Except.bind]
    cases hs : lookupField "symbol" fields <;> simp_all [toUpperCase]
  | _ => simp [mapMarket, JSVal.prop, bind, Except.bind, toUpperCase, typeError]

theorem mapMarket_ok_of_mappable (p : Platform) (crypto : JSVal)
    (h : mappableMarket crypto = true) : ∃ out, mapMarket p crypto = .ok out := by
  cases crypto with
  | obj fields =>
    simp only [mappableMarket] at h
    simp only [mapMarket, JSVal.prop, bind, Except.bind]
    cases hs : lookupField "symbol" fields <;> simp_all [toUpperCase, pure, Except.pure]
  | _ => simp [mappableMarket] at h

theorem arrayMap_error_of_not_all (p : Platform) (items : List JSVal)
    (h : items.all mappableMarket = false) :
    ∃ e, arrayMap (mapMarket p) items = .error e := by
  induction items with
  | nil => simp at h
  | cons x rest ih =>
    cases hx : mappableMarket x with
    | false =>
      obtain ⟨e, he⟩ := mapMarket_error_of_not_mappable p x hx
      exact ⟨e, by simp [arrayMap, he]⟩
    | true =>
      obtain ⟨y, hy⟩ := mapMarket_ok_of_mappable p x hx
      have hrest : rest.all mappableMarket = false := by
        simpa [List.all_cons, hx] using h
      obtain ⟨e, he⟩ := ih hrest
      exact ⟨e, by simp [arrayMap, hy, he]⟩

theorem arrayMap_ok_of_all (p : Platform) (items : List JSVal)
    (h : items.all mappableMarket = true) :
    ∃ out, arrayMap (mapMarket p) items = .ok out := by
  induction items with
  | nil => exact ⟨[], rfl⟩
  | cons x rest ih =>
    simp only [List.all_cons, Bool.and_eq_true] at h
    obtain ⟨y, hy⟩ := mapMarket_ok_of_mappable p x h.1
    obtain ⟨ys, hys⟩ := ih h.2
    exact ⟨y :: ys, by simp [arrayMap, hy, hys]⟩

theorem fetchTry_error_of_failed (p : Platform) (r : AxiosResult)
    (h : upstreamFailed r = true) : ∃ e, fetchTry p r = .error e := by
  cases r with
  | rejected error => exact ⟨error, rfl⟩
  | resolved status data =>
    by_cases hs : status = 200
    · subst hs
      have hb : mappableBody data = false := by simpa [upstreamFailed] using h
      cases data with
      | arr items => simpa [fetchTry] using arrayMap_error_of_not_all p items hb
      | _ => simp [fetchTry]
    · exact ⟨{ message := "CoinGecko API error: " ++ toString status }, by simp [fetchTry, hs]⟩

/-- The predicate `upstreamFailed` is exact: on every other outcome the `try` block of
`fetchCryptocurrencies` completes. -/
theorem fetchTry_ok_of_not_failed (p : Platform) (r : AxiosResult)
    (h : upstreamFailed r = false) : ∃ cryptoData, fetchTry p r = .ok cryptoData := by
  cases r with
  | rejected error => simp [upstreamFailed] at h
  | resolved status data =>
    simp only [upstreamFailed, Bool.or_eq_false_iff, decide_eq_false_iff_not, not_not,
      Bool.not_eq_false'] at h
    obtain ⟨hs, hb⟩ := h
    subst hs
    cases data with
    | arr items => simpa [fetchTry] using arrayMap_ok_of_all p items hb
    | _ => simp [mappableBody] at hb

theorem fetchCryptocurrencies_ok (p : Platform) (r : AxiosResult) :
    ∃ cryptoData, fetchCryptocurrencies p r = .ok cryptoData := by
  unfold fetchCryptocurrencies
  cases fetchTry p r with
  | ok v => exact ⟨v, rfl⟩
  | error e => exact ⟨getMockData, rfl⟩

theorem fetchCryptocurrencies_failed (p : Platform) (r : AxiosResult)
    (h : upstreamFailed r = true) : fetchCryptocurrencies p r = .ok getMockData := by
  obtain ⟨e, he⟩ := fetchTry_error_of_failed p r h
  simp [fetchCryptocurrencies, he]

/-- C1: `fetchCryptocurrencies` returns normally on every outcome of the upstream call,
and on every failure outcome (rejected request, status other than 200, 200 body that
cannot be mapped) the value returned is `getMockData()`, a list of five records. -/
theorem fetchCryptocurrencies_never_fails (p : Platform) (r : AxiosResult) :
    (∃ cryptoData, fetchCryptocurrencies p r = .ok cryptoData) ∧
    (upstreamFailed r = true → fetchCryptocurrencies p r = .ok getMockData) ∧
    getMockData.length = 5 :=
  ⟨fetchCryptocurrencies_ok p r, fetchCryptocurrencies_failed p r, rfl⟩

/-- C1 at a 200 response whose body is an HTML error page (a string, not an array). -/
theorem fetchCryptocurrencies_never_fails_witness :
    upstreamFailed (.resolved 200 (.str "<html>rate limited</html>")) = true ∧
    fetchCryptocurrencies samplePlatform (.resolved 200 (.str "<html>rate limited</html>"))
      = .ok getMockData :=
  ⟨rfl, (fetchCryptocurrencies_never_fails samplePlatform _).2.1 rfl⟩

/-! ## The upsert statement on the table -/

theorem upsertCrypto_ok (p : Platform) (failure : Option String) (now : Nat)
    (store store2 : List Row) (cryptoData : JSVal)
    (h : upsertCrypto p failure now store cryptoData = .ok store2) :
    failure = none ∧ ∃ key, recordKey p cryptoData = some key ∧
      store2 = execUpsert now key (cryptoData.field "name") (cryptoData.field "symbol")
        ((cryptoData.field "current_price").or zero) ((cryptoData.field "market_cap").or zero)
        ((cryptoData.field "total_volume").or zero)
        ((cryptoData.field "price_change_percentage_24h").or zero)
        (cryptoData.field "image") store := by
  cases failure with
  | some msg => simp [upsertCrypto] at h
  | none =>
    refine ⟨rfl, ?_⟩
    cases cryptoData <;>
      simp only [upsertCrypto, JSVal.prop, bind, Except.bind, pure, Except.pure] at h <;>
      first
        | exact absurd h (by simp)
        | (simp only [recordKey, JSVal.field, JSVal.prop]
           split at h
           · exact absurd h (by simp)
           · rename_i key hkey
             exact ⟨key, hkey, (Except.ok.inj h).symm⟩)

theorem upsertCrypto_of_key (p : Platform) (now : Nat) (store : List Row) (cryptoData : JSVal)
    (key : String) (hkey : recordKey p cryptoData = some key) :
    upsertCrypto p none now store cryptoData =
      .ok (execUpsert now key (cryptoData.field "name") (cryptoData.field "symbol")
        ((cryptoData.field "current_price").or zero) ((cryptoData.field "market_cap").or zero)
        ((cryptoData.field "total_volume").or zero)
        ((cryptoData.field "price_change_percentage_24h").or zero)
        (cryptoData.field "image") store) := by
  cases cryptoData <;>
    simp only [recordKey, JSVal.prop] at hkey <;>
    first
      | exact absurd hkey (by simp)
      | simp [upsertCrypto, JSVal.prop, bind, Except.bind, pure, Except.pure, JSVal.field, hkey]

theorem rowsWithId_of_nodup (store : List Row) (h : StoreWF store) (old : Row)
    (hmem : old ∈ store) : rowsWithId store old.id = [old] := by
  induction store with
  | nil => simp at hmem
  | cons r rest ih =>
    simp only [StoreWF, List.map_cons, List.nodup_cons, List.mem_map, not_exists, not_and] at h
    rcases List.mem_cons.mp hmem with heq | hin
    · subst heq
      have hnone : rowsWithId rest old.id = [] := by
        simp only [rowsWithId, List.filter_eq_nil_iff, beq_iff_eq]
        intro r hr hid
        exact h.1 r hr hid
      simp only [rowsWithId] at hnone
      simp [rowsWithId, hnone]
    · have hne : r.id ≠ old.id := fun hid => h.1 old hin hid.symm
      have := ih h.2 hin
      simp only [rowsWithId] at this
      simp [rowsWithId, hne, this]

theorem rowsWithId_eq_nil (store : List Row) (key : String)
    (h : store.any (fun r => r.id == key) = false) : rowsWithId store key = [] := by
  simp only [rowsWithId, List.filter_eq_nil_iff]
  intro r hr
  have := List.any_eq_false.mp h r hr
  simpa using this

theorem execUpsert_ids (now : Nat) (key : String) (a b c d e f g : JSVal) (store : List Row) :
    (execUpsert now key a b c d e f g store).map (fun r => r.id) =
      if store.any (fun r => r.id == key) then store.map (fun r => r.id)
      else store.map (fun r => r.id) ++ [key] := by
  unfold execUpsert
  split
  · rw [List.map_map]
    apply List.map_congr_left
    intro r _
    simp only [Function.comp]
    split <;> rfl
  · simp

theorem execUpsert_wf (now : Nat) (key : String) (a b c d e f g : JSVal) (store : List Row)
    (h : StoreWF store) : StoreWF (execUpsert now key a b c d e f g store) := by
  unfold StoreWF at *
  rw [execUpsert_ids]
  split
  · exact h
  · rename_i hany
    have hany2 : store.any (fun r => r.id == key) = false := by simpa using hany
    refine List.Nodup.append h (List.nodup_singleton key) ?_
    intro x hx hk
    simp only [List.mem_singleton] at hk
    subst hk
    obtain ⟨r, hr, hid⟩ := List.mem_map.mp hx
    have := List.any_eq_false.mp hany2 r hr
    simp [hid] at this

theorem execUpsert_rows (now : Nat) (key : String) (a b c d e f g : JSVal) (store : List Row)
    (h : StoreWF store) :
    rowsWithId (execUpsert now key a b c d e f g store) key =
      match rowsWithId store key with
      | old :: _ =>
        [{ old with current_price := c, market_cap := d, total_volume := e,
                    price_change_percentage_24h := f, image := g, last_updated := now }]
      | [] =>
        [{ id := key, name := a, symbol := b, current_price := c, market_cap := d,
           total_volume := e, price_change_percentage_24h := f, image := g,
           last_updated := now, created_at := now }] := by
  cases hany : store.any (fun r => r.id == key) with
  | false =>
    have hnil := rowsWithId_eq_nil store key hany
    rw [hnil]
    simp only [rowsWithId] at hnil
    simp [execUpsert, hany, rowsWithId, hnil]
  | true =>
    obtain ⟨old, hmem, hid⟩ := List.any_eq_true.mp hany
    have hid2 : old.id = key := by simpa using hid
    have hrows := rowsWithId_of_nodup store h old hmem
    rw [hid2] at hrows
    rw [hrows]
    simp only [execUpsert, hany, if_true, rowsWithId, List.filter_map]
    have hcomp : ((fun r : Row => r.id == key) ∘ fun r : Row =>
        if (r.id == key) = true then
          { r with current_price := c, market_cap := d, total_volume := e,
                   price_change_percentage_24h := f, image := g, last_updated := now }
        else r) = fun r : Row => r.id == key := by
      funext r
      simp only [Function.comp]
      split <;> rfl
    rw [hcomp]
    simp only [rowsWithId] at hrows
    rw [hrows]
    simp [hid2]

/-- C6 (as amended): a successful `upsertCrypto` on a table with unique ids files the
record under its key.  If a row with that key exists, its `current_price`, `market_cap`,
`total_volume`, `price_change_percentage_24h` (a falsy value stored as `0`) and `image`
take the record's values and `last_updated` is refreshed, while `name`, `symbol` and
`created_at` keep the stored values.  If no row has the key, a row with all the record's
fields is inserted. -/
theorem upsertCrypto_effect (p : Platform) (failure : Option String) (now : Nat)
    (store store2 : List Row) (cryptoData : JSVal) (hwf : StoreWF store)
    (h : upsertCrypto p failure now store cryptoData = .ok store2) :
    ∃ key, recordKey p cryptoData = some key ∧
      (∀ old, rowsWithId store key = [old] →
        rowsWithId store2 key =
          [{ old with
             current_price := (cryptoData.field "current_price").or zero,
             market_cap := (cryptoData.field "market_cap").or zero,
             total_volume := (cryptoData.field "total_volume").or zero,
             price_change_percentage_24h :=
               (cryptoData.field "price_change_percentage_24h").or zero,
             image := cryptoData.field "image",
             last_updated := now }]) ∧
      (rowsWithId store key = [] →
        rowsWithId store2 key =
          [{ id := key,
             name := cryptoData.field "name",
             symbol := cryptoData.field "symbol",
             current_price := (cryptoData.field "current_price").or zero,
             market_cap := (cryptoData.field "market_cap").or zero,
             total_volume := (cryptoData.field "total_volume").or zero,
             price_change_percentage_24h :=
               (cryptoData.field "price_change_percentage_24h").or zero,
             image := cryptoData.field "image",
             last_updated := now,
             created_at := now }]) := by
  obtain ⟨_, key, hkey, hstore⟩ := upsertCrypto_ok p failure now store store2 cryptoData h
  refine ⟨key, hkey, ?_, ?_⟩
  · intro old hold
    rw [hstore, execUpsert_rows _ _ _ _ _ _ _ _ _ _ hwf, hold]
  · intro hnone
    rw [hstore, execUpsert_rows _ _ _ _ _ _ _ _ _ _ hwf, hnone]

/-- C6 upserting `renamedBitcoin` at time 100: over the stored `bitcoinRow`, and into the
empty table. -/
theorem upsertCrypto_effect_witness :
    (StoreWF [bitcoinRow] ∧ rowsWithId [bitcoinRow] "bitcoin" = [bitcoinRow] ∧
      ∃ row, upsertCrypto samplePlatform none 100 [bitcoinRow] renamedBitcoin = .ok [row] ∧
        rowsWithId [row] "bitcoin" = [row] ∧ row.name = JSVal.str "Bitcoin" ∧
        row.current_price = lit 50000 ∧ row.last_updated = 100 ∧ row.created_at = 10) ∧
    (StoreWF [] ∧ rowsWithId [] "bitcoin" = [] ∧
      upsertCrypto samplePlatform none 100 [] renamedBitcoin = .ok [renamedRow 100] ∧
      rowsWithId [renamedRow 100] "bitcoin" = [renamedRow 100]) := by
  have hwf : StoreWF [bitcoinRow] := by simp [StoreWF]
  have hwf0 : StoreWF [] := by simp [StoreWF]
  obtain ⟨key, hkey, hupd, _⟩ :=
    upsertCrypto_effect samplePlatform none 100 [bitcoinRow] _ renamedBitcoin hwf rfl
  obtain ⟨key0, hkey0, _, hins⟩ :=
    upsertCrypto_effect samplePlatform none 100 [] [renamedRow 100] renamedBitcoin hwf0 rfl
  have hk : key = "bitcoin" := (Option.some.inj hkey).symm
  have hk0 : key0 = "bitcoin" := (Option.some.inj hkey0).symm
  subst hk
  subst hk0
  exact ⟨⟨hwf, rfl, _, rfl, hupd bitcoinRow rfl, rfl, rfl, rfl, rfl⟩, hwf0, rfl, rfl, hins rfl⟩

/-- C6 as stated fails: upserting `renamedBitcoin` over `bitcoinRow` succeeds and leaves
one row, whose `name` and `symbol` are still the stored ones, not those of the record. -/
theorem upsertCrypto_keeps_name_and_symbol :
    ∃ row, upsertCrypto samplePlatform none 100 [bitcoinRow] renamedBitcoin = .ok [row] ∧
      row.name = JSVal.str "Bitcoin" ∧ renamedBitcoin.field "name" = JSVal.str "Bitcoin Core" ∧
      row.symbol = JSVal.str "BTC" ∧ renamedBitcoin.field "symbol" = JSVal.str "XBT" ∧
      row.name ≠ renamedBitcoin.field "name" ∧ row.symbol ≠ renamedBitcoin.field "symbol" := by
  refine ⟨_, rfl, rfl, rfl, rfl, rfl, ?_, ?_⟩
  · show JSVal.str "Bitcoin" ≠ JSVal.str "Bitcoin Core"
    simp
  · show JSVal.str "BTC" ≠ JSVal.str "XBT"
    simp

/-- C7: `upsertCrypto` is idempotent.  On a table with unique ids, two successful
applications of the same record leave exactly one row with the record's key, and that
row has the data columns and the `created_at` it had after the first application. -/
theorem upsertCrypto_idempotent (p : Platform) (f1 f2 : Option String) (t1 t2 : Nat)
    (store s1 s2 : List Row) (r : JSVal) (hwf : StoreWF store)
    (h1 : upsertCrypto p f1 t1 store r = .ok s1)
    (h2 : upsertCrypto p f2 t2 s1 r = .ok s2) :
    ∃ key row1 row2, recordKey p r = some key ∧
      rowsWithId s1 key = [row1] ∧ rowsWithId s2 key = [row2] ∧
      row2.data = row1.data ∧ row2.created_at = row1.created_at := by
  obtain ⟨_, key, hkey, hs1⟩ := upsertCrypto_ok p f1 t1 store s1 r h1
  obtain ⟨_, key2, hkey2, hs2⟩ := upsertCrypto_ok p f2 t2 s1 s2 r h2
  have hk : key2 = key := Option.some.inj (hkey2.symm.trans hkey)
  subst hk
  have hwf1 : StoreWF s1 := by rw [hs1]; exact execUpsert_wf _ _ _ _ _ _ _ _ _ _ hwf
  have hrows1 := execUpsert_rows t1 key2 (r.field "name") (r.field "symbol")
    ((r.field "current_price").or zero) ((r.field "market_cap").or zero)
    ((r.field "total_volume").or zero) ((r.field "price_change_percentage_24h").or zero)
    (r.field "image") store hwf
  rw [← hs1] at hrows1
  have hrows2 := execUpsert_rows t2 key2 (r.field "name") (r.field "symbol")
    ((r.field "current_price").or zero) ((r.field "market_cap").or zero)
    ((r.field "total_volume").or zero) ((r.field "price_change_percentage_24h").or zero)
    (r.field "image") s1 hwf1
  rw [← hs2] at hrows2
  cases hold : rowsWithId store key2 with
  | nil =>
    rw [hold] at hrows1
    rw [hrows1] at hrows2
    exact ⟨key2, _, _, hkey, hrows1, hrows2, rfl, rfl⟩
  | cons old rest =>
    rw [hold] at hrows1
    rw [hrows1] at hrows2
    exact ⟨key2, _, _, hkey, hrows1, hrows2, rfl, rfl⟩

/-- C7 on the empty table: `renamedBitcoin` upserted at time 100 and again at time 200. -/
theorem upsertCrypto_idempotent_witness :
    StoreWF [] ∧
    upsertCrypto samplePlatform none 100 [] renamedBitcoin = .ok [renamedRow 100] ∧
    upsertCrypto samplePlatform none 200 [renamedRow 100] renamedBitcoin = .ok [renamedRow 200] ∧
    ∃ key row1 row2, recordKey samplePlatform renamedBitcoin = some key ∧
      rowsWithId [renamedRow 100] key = [row1] ∧ rowsWithId [renamedRow 200] key = [row2] ∧
      row2.data = row1.data ∧ row2.created_at = row1.created_at :=
  ⟨by simp [StoreWF], rfl, rfl,
    upsertCrypto_idempotent samplePlatform none none 100 200 [] [renamedRow 100]
      [renamedRow 200] renamedBitcoin (by simp [StoreWF]) rfl rfl⟩

/-! ## The cache blocks -/

theorem cachedPayload_closed (p : Platform) (env : Env) (r : Redis) (key : String)
    (h : r.isOpen = false) : cachedPayload p env r key = none := by
  simp [cachedPayload, h]

theorem cachedPayload_get_error (p : Platform) (env : Env) (r : Redis) (key : String)
    (h : env.cacheGetError.isSome = true) : cachedPayload p env r key = none := by
  obtain ⟨msg, hmsg⟩ := Option.isSome_iff_exists.mp h
  unfold cachedPayload
  split
  · simp [redisGet, hmsg]
  · rfl

theorem cacheStore_closed (p : Platform) (env : Env) (r : Redis) (key : String) (v : JSVal)
    (h : r.isOpen = false) : cacheStore p env r key v = r := by
  simp [cacheStore, h]

theorem cacheStore_set_error (p : Platform) (env : Env) (r : Redis) (key : String) (v : JSVal)
    (h : env.cacheSetError.isSome = true) : cacheStore p env r key v = r := by
  obtain ⟨msg, hmsg⟩ := Option.isSome_iff_exists.mp h
  unfold cacheStore
  split
  · simp [redisSetEx, hmsg]
  · rfl

/-! ## The handlers past the cache read -/

theorem getCryptos_miss (p : Platform) (env : Env) (w : World) (cryptoData : List JSVal)
    (hmiss : cachedPayload p env w.redis "cryptos" = none)
    (hfetch : fetchCryptocurrencies p env.upstream = .ok cryptoData) :
    getCryptos p env w =
      ((match (persistAll p env w.store cryptoData).1 with
        | none => json (JSVal.arr cryptoData)
        | some e => serverError "Failed to fetch cryptocurrency data" e),
       { redis := cacheStore p env w.redis "cryptos" (JSVal.arr cryptoData),
         store := (persistAll p env w.store cryptoData).2 }) := by
  unfold getCryptos
  rw [hmiss, hfetch]
  simp only
  rcases hp : persistAll p env w.store cryptoData with ⟨err, store⟩
  cases err <;> rfl

theorem getCrypto_miss (p : Platform) (env : Env) (w : World) (id : String)
    (hmiss : cachedPayload p env w.redis ("crypto:" ++ id) = none) :
    getCrypto p env w id =
      match getCryptoById p env.dbReadError w.store id with
      | .error error => (serverError "Failed to fetch cryptocurrency" error, w)
      | .ok none => (notFound id, w)
      | .ok (some crypto) =>
        (json crypto, { w with redis := cacheStore p env w.redis ("crypto:" ++ id) crypto }) := by
  unfold getCrypto
  rw [hmiss]
  rfl

theorem updateCryptoData_eq (p : Platform) (env : Env) (w : World) (cryptoData : List JSVal)
    (hfetch : fetchCryptocurrencies p env.upstream = .ok cryptoData) :
    updateCryptoData p env w =
      ((match (persistAll p env w.store cryptoData).1 with
        | none => .ok cryptoData.length
        | some e => .error e),
       { redis := cacheStore p env w.redis "cryptos" (JSVal.arr cryptoData),
         store := (persistAll p env w.store cryptoData).2 }) := by
  unfold updateCryptoData
  rw [hfetch]
  simp only
  rcases hp : persistAll p env w.store cryptoData with ⟨err, store⟩
  cases err <;> rfl

/-- The awaited `Promise.all` resolves exactly when no upsert call is rejected by the
database and every record has a table key. -/
theorem persistFrom_ok_iff (p : Platform) (env : Env) (cryptoData : List JSVal) :
    ∀ (i : Nat) (store : List Row),
      (persistFrom p env i store cryptoData).1 = none ↔
        ∀ j crypto, cryptoData[j]? = some crypto →
          env.dbWriteError (i + j) = none ∧ (recordKey p crypto).isSome = true := by
  induction cryptoData with
  | nil => intro i store; simp [persistFrom]
  | cons c rest ih =>
    intro i store
    constructor
    · intro hok j crypto hj
      simp only [persistFrom] at hok
      cases hup : upsertCrypto p (env.dbWriteError i) env.now store c with
      | error e => rw [hup] at hok; simp at hok
      | ok store2 =>
        rw [hup] at hok
        obtain ⟨hfail, key, hkey, _⟩ := upsertCrypto_ok p _ _ _ _ _ hup
        cases j with
        | zero =>
          simp only [List.getElem?_cons_zero, Option.some.injEq] at hj
          subst hj
          exact ⟨hfail, by simp [hkey]⟩
        | succ k =>
          simp only [List.getElem?_cons_succ] at hj
          have := (ih (i + 1) store2).mp hok k crypto hj
          rwa [show i + (k + 1) = i + 1 + k by omega]
    · intro hall
      obtain ⟨hfail, hsome⟩ := hall 0 c (by simp)
      obtain ⟨key, hkey⟩ := Option.isSome_iff_exists.mp hsome
      simp only [persistFrom]
      rw [Nat.add_zero] at hfail
      rw [hfail, upsertCrypto_of_key p env.now store c key hkey]
      apply (ih (i + 1) _).mpr
      intro k crypto hk
      have := hall (k + 1) crypto (by simpa using hk)
      rwa [show i + (k + 1) = i + 1 + k by omega] at this

/-! ## Upserts of one run: a rejected call leaves the others -/

theorem execUpsert_keeps_ids (now : Nat) (key : String) (a b c d e f g : JSVal)
    (store : List Row) (id : String) (h : ∃ row, row ∈ store ∧ row.id = id) :
    ∃ row, row ∈ execUpsert now key a b c d e f g store ∧ row.id = id := by
  obtain ⟨row, hrow, hid⟩ := h
  have hmem : id ∈ (execUpsert now key a b c d e f g store).map (fun r => r.id) := by
    rw [execUpsert_ids]
    have : id ∈ store.map (fun r => r.id) := List.mem_map.mpr ⟨row, hrow, hid⟩
    split
    · exact this
    · exact List.mem_append_left _ this
  obtain ⟨row2, hrow2, hid2⟩ := List.mem_map.mp hmem
  exact ⟨row2, hrow2, hid2⟩

theorem persistFrom_keeps_ids (p : Platform) (env : Env) (cryptoData : List JSVal) :
    ∀ (i : Nat) (store : List Row) (id : String),
      (∃ row, row ∈ store ∧ row.id = id) →
      ∃ row, row ∈ (persistFrom p env i store cryptoData).2 ∧ row.id = id := by
  induction cryptoData with
  | nil => intro i store id h; exact h
  | cons c rest ih =>
    intro i store id h
    simp only [persistFrom]
    cases hup : upsertCrypto p (env.dbWriteError i) env.now store c with
    | error e => exact ih (i + 1) store id h
    | ok store2 =>
      obtain ⟨_, key, _, hstore⟩ := upsertCrypto_ok p _ _ _ _ _ hup
      exact ih (i + 1) store2 id (hstore ▸ execUpsert_keeps_ids _ _ _ _ _ _ _ _ _ _ _ h)

theorem execUpsert_mem_of_ne (now : Nat) (key : String) (a b c d e f g : JSVal)
    (store : List Row) (row : Row) (hrow : row ∈ store) (hne : row.id ≠ key) :
    row ∈ execUpsert now key a b c d e f g store := by
  unfold execUpsert
  split
  · refine List.mem_map.mpr ⟨row, hrow, ?_⟩
    have : (row.id == key) = false := by simpa using hne
    simp [this]
  · exact List.mem_append_left _ hrow

theorem execUpsert_assigns (now : Nat) (key : String) (a b c d e f g : JSVal)
    (store : List Row) :
    ∃ row, row ∈ execUpsert now key a b c d e f g store ∧ row.id = key ∧
      row.current_price = c ∧ row.market_cap = d ∧ row.total_volume = e ∧
      row.price_change_percentage_24h = f ∧ row.image = g ∧ row.last_updated = now := by
  unfold execUpsert
  split
  · rename_i hany
    obtain ⟨old, hold, hid⟩ := List.any_eq_true.mp hany
    refine ⟨_, List.mem_map.mpr ⟨old, hold, rfl⟩, ?_⟩
    have hid2 : old.id = key := by simpa using hid
    simp [hid2]
  · exact ⟨_, List.mem_append_right _ (List.mem_singleton.mpr rfl), rfl, rfl, rfl, rfl, rfl,
      rfl, rfl⟩

theorem execUpsert_refreshed (now : Nat) (key : String) (a b c d e f g : JSVal)
    (store : List Row) (id : String)
    (h : ∃ row, row ∈ store ∧ row.id = id ∧ row.last_updated = now) :
    ∃ row, row ∈ execUpsert now key a b c d e f g store ∧ row.id = id ∧
      row.last_updated = now := by
  obtain ⟨row, hrow, hid, hnow⟩ := h
  by_cases hk : row.id = key
  · obtain ⟨row2, hmem, hid2, _, _, _, _, _, hnow2⟩ :=
      execUpsert_assigns now key a b c d e f g store
    exact ⟨row2, hmem, by rw [hid2, ← hk, hid], hnow2⟩
  · exact ⟨row, execUpsert_mem_of_ne now key a b c d e f g store row hrow hk, hid, hnow⟩

theorem persistFrom_mem (p : Platform) (env : Env) (row : Row) (cryptoData : List JSVal) :
    ∀ (i : Nat) (store : List Row), row ∈ store →
      (∀ j crypto, cryptoData[j]? = some crypto → env.dbWriteError (i + j) = none →
        recordKey p crypto ≠ some row.id) →
      row ∈ (persistFrom p env i store cryptoData).2 := by
  induction cryptoData with
  | nil => intro i store h _; exact h
  | cons c rest ih =>
    intro i store h hother
    have hrest : ∀ j crypto, rest[j]? = some crypto → env.dbWriteError (i + 1 + j) = none →
        recordKey p crypto ≠ some row.id := by
      intro j crypto hj hw
      exact hother (j + 1) crypto (by simpa using hj) (by rw [← hw]; congr 1; omega)
    simp only [persistFrom]
    cases hup : upsertCrypto p (env.dbWriteError i) env.now store c with
    | error e => exact ih (i + 1) store h hrest
    | ok store2 =>
      obtain ⟨hnone, key, hkey, hstore⟩ := upsertCrypto_ok p _ _ _ _ _ hup
      have hne : row.id ≠ key := by
        intro heq
        exact hother 0 c (by simp) (by simpa using hnone) (by rw [hkey, heq])
      exact ih (i + 1) store2
        (hstore ▸ execUpsert_mem_of_ne _ _ _ _ _ _ _ _ _ _ row h hne) hrest

theorem persistFrom_refreshed (p : Platform) (env : Env) (id : String)
    (cryptoData : List JSVal) :
    ∀ (i : Nat) (store : List Row),
      (∃ row, row ∈ store ∧ row.id = id ∧ row.last_updated = env.now) →
      ∃ row, row ∈ (persistFrom p env i store cryptoData).2 ∧ row.id = id ∧
        row.last_updated = env.now := by
  induction cryptoData with
  | nil => intro i store h; exact h
  | cons c rest ih =>
    intro i store h
    simp only [persistFrom]
    cases hup : upsertCrypto p (env.dbWriteError i) env.now store c with
    | error e => exact ih (i + 1) store h
    | ok store2 =>
      obtain ⟨_, key, _, hstore⟩ := upsertCrypto_ok p _ _ _ _ _ hup
      exact ih (i + 1) store2 (hstore ▸ execUpsert_refreshed _ _ _ _ _ _ _ _ _ _ _ h)

theorem persistFrom_applies (p : Platform) (env : Env) (cryptoData : List JSVal) :
    ∀ (i : Nat) (store : List Row) (j : Nat) (crypto : JSVal) (key : String),
      cryptoData[j]? = some crypto → env.dbWriteError (i + j) = none →
      recordKey p crypto = some key →
      (∃ row, row ∈ (persistFrom p env i store cryptoData).2 ∧ row.id = key ∧
        row.last_updated = env.now) ∧
      ((∀ k later, j < k → cryptoData[k]? = some later → env.dbWriteError (i + k) = none →
          recordKey p later ≠ some key) →
        ∃ row, row ∈ (persistFrom p env i store cryptoData).2 ∧ row.id = key ∧
          row.UpsertedFrom crypto env.now) := by
  induction cryptoData with
  | nil => intro i store j crypto key hj; simp at hj
  | cons c rest ih =>
    intro i store j crypto key hj hw hkey
    cases j with
    | zero =>
      have hc : c = crypto := by simpa using hj
      subst hc
      have hw0 : env.dbWriteError i = none := by simpa using hw
      have hup := upsertCrypto_of_key p env.now store c key hkey
      obtain ⟨row, hmem, hid, h1, h2, h3, h4, h5, h6⟩ :=
        execUpsert_assigns env.now key (c.field "name") (c.field "symbol")
          ((c.field "current_price").or zero) ((c.field "market_cap").or zero)
          ((c.field "total_volume").or zero)
          ((c.field "price_change_percentage_24h").or zero) (c.field "image") store
      simp only [persistFrom, hw0, hup]
      refine ⟨persistFrom_refreshed p env key rest (i + 1) _ ⟨row, hmem, hid, h6⟩, ?_⟩
      intro hlater
      refine ⟨row, persistFrom_mem p env row rest (i + 1) _ hmem ?_, hid,
        h1, h2, h3, h4, h5, h6⟩
      intro k later hk hwk
      rw [hid]
      exact hlater (k + 1) later (Nat.succ_pos k) (by simpa using hk)
        (by rw [← hwk]; congr 1; omega)
    | succ j =>
      have hj2 : rest[j]? = some crypto := by simpa using hj
      have hw2 : env.dbWriteError (i + 1 + j) = none := by rw [← hw]; congr 1; omega
      have key2 : ∀ store2, (persistFrom p env i store (c :: rest)).2 =
          (persistFrom p env (i + 1) store2 rest).2 →
          (∃ row, row ∈ (persistFrom p env i store (c :: rest)).2 ∧ row.id = key ∧
            row.last_updated = env.now) ∧
          ((∀ k later, j + 1 < k → (c :: rest)[k]? = some later →
              env.dbWriteError (i + k) = none → recordKey p later ≠ some key) →
            ∃ row, row ∈ (persistFrom p env i store (c :: rest)).2 ∧ row.id = key ∧
              row.UpsertedFrom crypto env.now) := by
        intro store2 heq
        rw [heq]
        obtain ⟨hA, hB⟩ := ih (i + 1) store2 j crypto key hj2 hw2 hkey
        refine ⟨hA, fun hlater => hB ?_⟩
        intro k later hk hkl hwk
        exact hlater (k + 1) later (by omega) (by simpa using hkl)
          (by rw [← hwk]; congr 1; omega)
      cases hup : upsertCrypto p (env.dbWriteError i) env.now store c with
      | error e => exact key2 store (by simp only [persistFrom, hup])
      | ok store2 => exact key2 store2 (by simp only [persistFrom, hup])

/-! ## GET /api/cryptos/:id -/

theorem getCryptoById_absent (p : Platform) (store : List Row) (id : String)
    (h : rowsWithId store id = []) : getCryptoById p none store id = .ok none := by
  simp only [rowsWithId] at h
  simp [getCryptoById, h]

/-- C2 (as amended): for an id with no row in the table, when the cache read yields no
payload (client not open, miss, or error) and the SELECT does not fail, the handler of
`GET /api/cryptos/:id` answers 404 with `{error: "Cryptocurrency not found", id}` and
changes nothing. -/
theorem getCrypto_not_found (p : Platform) (env : Env) (w : World) (id : String)
    (hrow : rowsWithId w.store id = [])
    (hmiss : cachedPayload p env w.redis ("crypto:" ++ id) = none)
    (hdb : env.dbReadError = none) :
    getCrypto p env w id = (notFound id, w) := by
  rw [getCrypto_miss p env w id hmiss, hdb, getCryptoById_absent p w.store id hrow]

/-- C2 for `GET /api/cryptos/does-not-exist` on the empty table with Redis connected. -/
theorem getCrypto_not_found_witness :
    getCrypto samplePlatform quietEnv openWorld "does-not-exist" =
      ({ status := 404,
         body := JSVal.obj [("error", JSVal.str "Cryptocurrency not found"),
                            ("id", JSVal.str "does-not-exist")] }, openWorld) :=
  getCrypto_not_found samplePlatform quietEnv openWorld "does-not-exist" rfl rfl rfl

/-- C2 as stated fails: an id without a row gets status 500 when the database read is
rejected, and status 200 with the cached record when Redis still holds an entry for it. -/
theorem getCrypto_absent_id_not_404 :
    (rowsWithId emptyWorld.store "does-not-exist" = [] ∧
      (getCrypto samplePlatform dbDownEnv emptyWorld "does-not-exist").1 =
        { status := 500,
          body := JSVal.obj [("error", JSVal.str "Failed to fetch cryptocurrency"),
                             ("details", JSVal.str "connect ECONNREFUSED")] }) ∧
    (rowsWithId staleWorld.store "ghost" = [] ∧
      (getCrypto samplePlatform quietEnv staleWorld "ghost").1 =
        { status := 200, body := JSVal.obj [("id", JSVal.str "ghost")] }) :=
  ⟨⟨rfl, rfl⟩, ⟨rfl, rfl⟩⟩

/-! ## GET /api/cryptos -/

/-- C3 (as amended): with the Redis client not open, the handler of `GET /api/cryptos`
answers 200 with the array returned by `fetchCryptocurrencies` when the awaited upserts
all go through, and 500 with the error of the rejected upsert otherwise. -/
theorem getCryptos_cache_closed (p : Platform) (env : Env) (w : World)
    (hclosed : w.redis.isOpen = false) :
    ∃ cryptoData, fetchCryptocurrencies p env.upstream = .ok cryptoData ∧
      ((persistAll p env w.store cryptoData).1 = none →
        (getCryptos p env w).1 = { status := 200, body := JSVal.arr cryptoData }) ∧
      (∀ e, (persistAll p env w.store cryptoData).1 = some e →
        (getCryptos p env w).1 = serverError "Failed to fetch cryptocurrency data" e) := by
  obtain ⟨cryptoData, hfetch⟩ := fetchCryptocurrencies_ok p env.upstream
  have hmiss := cachedPayload_closed p env w.redis "cryptos" hclosed
  refine ⟨cryptoData, hfetch, ?_, ?_⟩
  · intro hok
    rw [getCryptos_miss p env w cryptoData hmiss hfetch, hok]
    rfl
  · intro e he
    rw [getCryptos_miss p env w cryptoData hmiss hfetch, he]

/-- C3 with Redis down and the provider timing out: 200 with the fallback list when the
database takes the upserts, 500 with its error when it is unreachable. -/
theorem getCryptos_cache_closed_witness :
    emptyWorld.redis.isOpen = false ∧
    (getCryptos samplePlatform quietEnv emptyWorld).1 =
      { status := 200, body := JSVal.arr getMockData } ∧
    (getCryptos samplePlatform dbDownEnv emptyWorld).1 =
      serverError "Failed to fetch cryptocurrency data" { message := "connect ECONNREFUSED" } := by
  obtain ⟨cryptoData, hfetch, hok, _⟩ :=
    getCryptos_cache_closed samplePlatform quietEnv emptyWorld rfl
  obtain ⟨cryptoData2, hfetch2, _, herr⟩ :=
    getCryptos_cache_closed samplePlatform dbDownEnv emptyWorld rfl
  have hdata : cryptoData = getMockData := (Except.ok.inj hfetch).symm
  have hdata2 : cryptoData2 = getMockData := (Except.ok.inj hfetch2).symm
  subst hdata
  subst hdata2
  exact ⟨rfl, hok rfl, herr _ rfl⟩

/-- C3 as stated fails: with the Redis client not open and the database unreachable,
the handler answers 500, not 200. -/
theorem getCryptos_cache_closed_db_down :
    emptyWorld.redis.isOpen = false ∧
    (getCryptos samplePlatform dbDownEnv emptyWorld).1 =
      { status := 500,
        body := JSVal.obj [("error", JSVal.str "Failed to fetch cryptocurrency data"),
                           ("details", JSVal.str "connect ECONNREFUSED")] } ∧
    (getCryptos samplePlatform dbDownEnv emptyWorld).1.status ≠ 200 :=
  ⟨rfl, rfl, by decide⟩

/-- C4 (as amended): when the upstream call fails, the cache read yields no payload and
the awaited upserts of the fallback records all go through, the handler of
`GET /api/cryptos` answers 200 with `getMockData()`. -/
theorem getCryptos_provider_unreachable (p : Platform) (env : Env) (w : World)
    (hdown : upstreamFailed env.upstream = true)
    (hmiss : cachedPayload p env w.redis "cryptos" = none)
    (hok : (persistAll p env w.store getMockData).1 = none) :
    (getCryptos p env w).1 = { status := 200, body := JSVal.arr getMockData } ∧
    getMockData.length = 5 := by
  have hfetch := fetchCryptocurrencies_failed p env.upstream hdown
  rw [getCryptos_miss p env w getMockData hmiss hfetch, hok]
  exact ⟨rfl, rfl⟩

/-- C4 with Redis connected and empty, the provider timing out. -/
theorem getCryptos_provider_unreachable_witness :
    upstreamFailed quietEnv.upstream = true ∧
    (getCryptos samplePlatform quietEnv openWorld).1 =
      { status := 200, body := JSVal.arr getMockData } :=
  ⟨rfl, (getCryptos_provider_unreachable samplePlatform quietEnv openWorld rfl rfl rfl).1⟩

set_option maxRecDepth 20000 in
/-- C4 as stated fails: with the provider timing out, a live cache entry is served
instead of the fallback list (here a cached one-record list), and an unreachable
database turns the answer into a 500. -/
theorem getCryptos_provider_unreachable_other_answers :
    upstreamFailed quietEnv.upstream = true ∧
    (getCryptos samplePlatform quietEnv cachedListWorld).1 =
      { status := 200, body := JSVal.arr [renamedBitcoin] } ∧
    JSVal.arr [renamedBitcoin] ≠ JSVal.arr getMockData ∧
    upstreamFailed dbDownEnv.upstream = true ∧
    (getCryptos samplePlatform dbDownEnv emptyWorld).1.status = 500 :=
  ⟨rfl, rfl, by simp [getMockData], rfl, rfl⟩

/-- C5 (as amended): on a cache miss the handler of `GET /api/cryptos` awaits the
upserts: it answers 200 with the fetched payload when all of them go through and 500
with the error of the rejected one otherwise.  A rejected upsert neither stops nor undoes
the others: in both cases the table is the one `Promise.all` leaves, no row leaves the
table, a row that no accepted upsert addresses stays as it was, and every record whose
upsert is not rejected has its row in the table, refreshed at the time of the run and
holding the values of that record unless a later accepted record of the payload has the
same key. -/
theorem getCryptos_awaits_upserts (p : Platform) (env : Env) (w : World)
    (hmiss : cachedPayload p env w.redis "cryptos" = none) :
    ∃ cryptoData, fetchCryptocurrencies p env.upstream = .ok cryptoData ∧
      ((persistAll p env w.store cryptoData).1 = none →
        (getCryptos p env w).1 = { status := 200, body := JSVal.arr cryptoData }) ∧
      (∀ e, (persistAll p env w.store cryptoData).1 = some e →
        (getCryptos p env w).1 = serverError "Failed to fetch cryptocurrency data" e) ∧
      (getCryptos p env w).2.store = (persistAll p env w.store cryptoData).2 ∧
      (∀ row, row ∈ w.store →
        ∃ row2, row2 ∈ (getCryptos p env w).2.store ∧ row2.id = row.id) ∧
      (∀ row, row ∈ w.store →
        (∀ j crypto, cryptoData[j]? = some crypto → env.dbWriteError j = none →
          recordKey p crypto ≠ some row.id) →
        row ∈ (getCryptos p env w).2.store) ∧
      (∀ j crypto key, cryptoData[j]? = some crypto → env.dbWriteError j = none →
        recordKey p crypto = some key →
        (∃ row, row ∈ (getCryptos p env w).2.store ∧ row.id = key ∧
          row.last_updated = env.now) ∧
        ((∀ k later, j < k → cryptoData[k]? = some later → env.dbWriteError k = none →
            recordKey p later ≠ some key) →
          ∃ row, row ∈ (getCryptos p env w).2.store ∧ row.id = key ∧
            row.UpsertedFrom crypto env.now)) := by
  obtain ⟨cryptoData, hfetch⟩ := fetchCryptocurrencies_ok p env.upstream
  have hstore : (getCryptos p env w).2.store = (persistFrom p env 0 w.store cryptoData).2 := by
    rw [getCryptos_miss p env w cryptoData hmiss hfetch]
    rfl
  refine ⟨cryptoData, hfetch, ?_, ?_, hstore, ?_, ?_, ?_⟩
  · intro hok
    rw [getCryptos_miss p env w cryptoData hmiss hfetch, hok]
    rfl
  · intro e he
    rw [getCryptos_miss p env w cryptoData hmiss hfetch, he]
  · intro row hrow
    rw [hstore]
    exact persistFrom_keeps_ids p env cryptoData 0 w.store row.id ⟨row, hrow, rfl⟩
  · intro row hrow hother
    rw [hstore]
    refine persistFrom_mem p env row cryptoData 0 w.store hrow ?_
    intro j crypto hj hw
    exact hother j crypto hj (by simpa using hw)
  · intro j crypto key hj hw hkey
    rw [hstore]
    obtain ⟨hA, hB⟩ :=
      persistFrom_applies p env cryptoData 0 w.store j crypto key hj (by simpa using hw) hkey
    refine ⟨hA, fun hlater => hB ?_⟩
    intro k later hk hkl hwk
    exact hlater k later hk hkl (by simpa using hwk)

/-- C5 on a miss with Redis connected: 200 with the payload and five rows when every
upsert goes through; 500 with the error of the third upsert when it alone is rejected,
the row of the fifth record being written all the same. -/
theorem getCryptos_awaits_upserts_witness :
    cachedPayload samplePlatform quietEnv openWorld.redis "cryptos" = none ∧
    (getCryptos samplePlatform quietEnv openWorld).1 =
      { status := 200, body := JSVal.arr getMockData } ∧
    (getCryptos samplePlatform quietEnv openWorld).2.store.length = 5 ∧
    (getCryptos samplePlatform oneUpsertFailsEnv openWorld).1 =
      serverError "Failed to fetch cryptocurrency data"
        { message := "Lock wait timeout exceeded" } ∧
    (∃ row, row ∈ (getCryptos samplePlatform oneUpsertFailsEnv openWorld).2.store ∧
      row.id = "solana" ∧
      row.UpsertedFrom
        (record (.str "solana") (.str "Solana") (.str "SOL") (lit 98.50) (lit 42600000000)
          (lit 1250000000) (lit (-0.75))
          (.str "https://assets.coingecko.com/coins/images/4128/large/solana.png")) 100) := by
  obtain ⟨cryptoData, hfetch, hok, _, hstore, _⟩ :=
    getCryptos_awaits_upserts samplePlatform quietEnv openWorld rfl
  obtain ⟨cryptoData2, hfetch2, _, herr, _, _, _, happlied⟩ :=
    getCryptos_awaits_upserts samplePlatform oneUpsertFailsEnv openWorld rfl
  have hdata : cryptoData = getMockData := (Except.ok.inj hfetch).symm
  have hdata2 : cryptoData2 = getMockData := (Except.ok.inj hfetch2).symm
  subst hdata
  subst hdata2
  refine ⟨rfl, hok rfl, by rw [hstore]; rfl, herr _ rfl, ?_⟩
  refine (happlied 4 _ "solana" rfl rfl rfl).2 ?_
  intro k later hk hkl
  have hnone : getMockData[k]? = none :=
    List.getElem?_eq_none (by simp only [getMockData, List.length]; omega)
  rw [hnone] at hkl
  exact absurd hkl (by simp)

/-- C5 as stated fails: on a cache miss in which the third upsert alone is rejected, the
handler answers 500 with that error instead of the fetched payload; the four other
records are in the table. -/
theorem getCryptos_one_upsert_fails :
    cachedPayload samplePlatform oneUpsertFailsEnv openWorld.redis "cryptos" = none ∧
    fetchCryptocurrencies samplePlatform oneUpsertFailsEnv.upstream = .ok getMockData ∧
    (getCryptos samplePlatform oneUpsertFailsEnv openWorld).1 =
      { status := 500,
        body := JSVal.obj [("error", JSVal.str "Failed to fetch cryptocurrency data"),
                           ("details", JSVal.str "Lock wait timeout exceeded")] } ∧
    (getCryptos samplePlatform oneUpsertFailsEnv openWorld).1.status ≠ 200 ∧
    (getCryptos samplePlatform oneUpsertFailsEnv openWorld).2.store.map (fun r => r.id) =
      ["bitcoin", "ethereum", "cardano", "solana"] :=
  ⟨rfl, rfl, rfl, by decide, by decide⟩

/-! ## POST /api/cryptos/update -/

theorem execUpsert_fresh (now : Nat) (key : String) (a b c d e f g : JSVal) (store : List Row)
    (h : key ∉ store.map (fun r => r.id)) :
    execUpsert now key a b c d e f g store =
      store ++ [{ id := key, name := a, symbol := b, current_price := c, market_cap := d,
                  total_volume := e, price_change_percentage_24h := f, image := g,
                  last_updated := now, created_at := now }] := by
  have hany : store.any (fun r => r.id == key) = false := by
    rw [List.any_eq_false]
    intro r hr hid
    exact h (List.mem_map.mpr ⟨r, hr, by simpa using hid⟩)
  simp [execUpsert, hany]

theorem persistFrom_length (p : Platform) (env : Env) (cryptoData : List JSVal) :
    ∀ (i : Nat) (store : List Row),
      (persistFrom p env i store cryptoData).1 = none →
      (cryptoData.map (recordKey p)).Nodup →
      (∀ key, some key ∈ cryptoData.map (recordKey p) → key ∉ store.map (fun r => r.id)) →
      (persistFrom p env i store cryptoData).2.length = store.length + cryptoData.length := by
  induction cryptoData with
  | nil => intro i store _ _ _; simp [persistFrom]
  | cons crypto rest ih =>
    intro i store hok hnodup hfresh
    simp only [persistFrom] at hok ⊢
    cases hup : upsertCrypto p (env.dbWriteError i) env.now store crypto with
    | error e => rw [hup] at hok; simp at hok
    | ok store2 =>
      rw [hup] at hok
      simp only at hok ⊢
      obtain ⟨_, key, hkey, hstore⟩ := upsertCrypto_ok p _ _ _ _ _ hup
      simp only [List.map_cons, List.nodup_cons] at hnodup
      have hk : key ∉ store.map (fun r => r.id) :=
        hfresh key (by simp [hkey])
      rw [execUpsert_fresh _ _ _ _ _ _ _ _ _ _ hk] at hstore
      have hfresh2 : ∀ key2, some key2 ∈ rest.map (recordKey p) →
          key2 ∉ store2.map (fun r => r.id) := by
        intro key2 hin
        rw [hstore]
        simp only [List.map_append, List.map_cons, List.map_nil, List.mem_append,
          List.mem_singleton, not_or]
        refine ⟨hfresh key2 (by simp only [List.map_cons, List.mem_cons]; exact Or.inr hin), ?_⟩
        intro heq
        subst heq
        rw [hkey] at hnodup
        exact hnodup.1 hin
      rw [ih (i + 1) store2 hok hnodup.2 hfresh2, hstore]
      simp only [List.length_append, List.length_cons, List.length_nil]
      omega

/-- C8 (as amended): starting from an empty table, a manual update that answers 200
reports `updatedCount` equal to the length of the array returned by
`fetchCryptocurrencies`; the table then holds exactly that many rows provided the
records of the array have pairwise distinct keys. -/
theorem postUpdate_from_empty (p : Platform) (env : Env) (w : World)
    (hempty : w.store = [])
    (hsucc : (postUpdate p env w).1.status = 200) :
    ∃ cryptoData, fetchCryptocurrencies p env.upstream = .ok cryptoData ∧
      (postUpdate p env w).1.body =
        JSVal.obj [("message", JSVal.str "Cryptocurrency data updated successfully"),
                   ("updatedCount", JSVal.num (JSNum.fin cryptoData.length))] ∧
      ((cryptoData.map (recordKey p)).Nodup →
        (postUpdate p env w).2.store.length = cryptoData.length) := by
  obtain ⟨cryptoData, hfetch⟩ := fetchCryptocurrencies_ok p env.upstream
  refine ⟨cryptoData, hfetch, ?_⟩
  have hupd := updateCryptoData_eq p env w cryptoData hfetch
  cases hp : (persistAll p env w.store cryptoData).1 with
  | some e =>
    rw [hp] at hupd
    simp [postUpdate, hupd, serverError] at hsucc
  | none =>
    rw [hp] at hupd
    refine ⟨by simp [postUpdate, hupd, json], ?_⟩
    intro hnodup
    have hlen := persistFrom_length p env cryptoData 0 w.store hp hnodup
      (by rw [hempty]; simp)
    simp only [postUpdate, hupd]
    rw [show (persistAll p env w.store cryptoData).2 =
      (persistFrom p env 0 w.store cryptoData).2 from rfl, hlen, hempty]
    simp

/-- C8 for a manual update with the provider timing out: five rows, `updatedCount` 5. -/
theorem postUpdate_from_empty_witness :
    emptyWorld.store = [] ∧
    (postUpdate samplePlatform quietEnv emptyWorld).1.body =
      JSVal.obj [("message", JSVal.str "Cryptocurrency data updated successfully"),
                 ("updatedCount", JSVal.num (JSNum.fin 5))] ∧
    (postUpdate samplePlatform quietEnv emptyWorld).2.store.length = 5 := by
  obtain ⟨cryptoData, hfetch, hbody, hrows⟩ :=
    postUpdate_from_empty samplePlatform quietEnv emptyWorld rfl rfl
  have hdata : cryptoData = getMockData := (Except.ok.inj hfetch).symm
  subst hdata
  exact ⟨rfl, hbody, hrows (by decide)⟩

/-- C8 as stated fails: when the provider answers with the same market object twice, the
manual update from an empty table succeeds with `updatedCount` 2 (the length of the
array) and leaves one row. -/
theorem postUpdate_duplicate_ids :
    emptyWorld.store = [] ∧
    (∃ a b, fetchCryptocurrencies samplePlatform duplicateEnv.upstream = .ok [a, b]) ∧
    (postUpdate samplePlatform duplicateEnv emptyWorld).1 =
      { status := 200,
        body := JSVal.obj [("message", JSVal.str "Cryptocurrency data updated successfully"),
                           ("updatedCount", JSVal.num (JSNum.fin 2))] } ∧
    (postUpdate samplePlatform duplicateEnv emptyWorld).2.store.length = 1 :=
  ⟨rfl, ⟨_, _, rfl⟩, rfl, rfl⟩

/-! ## Numeric read-back -/

theorem readBack_numericFields (p : Platform) (row : Row) :
    ReadBack row (numericFields p row.toJS) := by
  simp [ReadBack, numericFields, Row.toJS, setField, lookupField, JSVal.field, JSVal.prop,
    JSVal.isNumber]

/-- C9: every record returned by `getCryptoById` and by `getAllCryptos` comes from a row
the database returned, has `current_price`, `market_cap`, `total_volume` and
`price_change_percentage_24h` of number type whatever the encoding of those columns,
and has every other column of the row unchanged; for an id present in the table
`getCryptoById` does return a record. -/
theorem numeric_columns_read_back (p : Platform) (store : List Row) :
    (∀ failure id crypto, getCryptoById p failure store id = .ok (some crypto) →
      ∃ row, row ∈ store ∧ row.id = id ∧ ReadBack row crypto) ∧
    (∀ row, row ∈ store → ∃ crypto, getCryptoById p none store row.id = .ok (some crypto)) ∧
    (∀ failure cryptos, getAllCryptos p failure store = .ok cryptos →
      List.Forall₂ ReadBack (p.orderByMarketCapDesc store) cryptos) ∧
    (∃ cryptos, getAllCryptos p none store = .ok cryptos) := by
  refine ⟨?_, ?_, ?_, ⟨_, rfl⟩⟩
  · intro failure id crypto h
    cases failure with
    | some msg => simp [getCryptoById] at h
    | none =>
      simp only [getCryptoById] at h
      cases hrows : List.filter (fun r => r.id == id) store with
      | nil => rw [hrows] at h; simp at h
      | cons row rest =>
        rw [hrows] at h
        simp only [List.head?_cons, Except.ok.injEq, Option.some.injEq] at h
        have hmem : row ∈ List.filter (fun r => r.id == id) store := by rw [hrows]; simp
        rw [List.mem_filter] at hmem
        exact ⟨row, hmem.1, by simpa using hmem.2, h ▸ readBack_numericFields p row⟩
  · intro row hrow
    simp only [getCryptoById]
    cases hrows : List.filter (fun r => r.id == row.id) store with
    | nil =>
      have : row ∈ List.filter (fun r => r.id == row.id) store := by
        rw [List.mem_filter]; exact ⟨hrow, by simp⟩
      rw [hrows] at this
      simp at this
    | cons first rest => exact ⟨_, rfl⟩
  · intro failure cryptos h
    cases failure with
    | some msg => simp [getAllCryptos] at h
    | none =>
      simp only [getAllCryptos, Except.ok.injEq] at h
      rw [← h, List.forall₂_map_right_iff]
      exact List.forall₂_same.mpr (fun row _ => readBack_numericFields p row)

/-- C9 on a table holding one row with string-encoded and NULL numeric columns. -/
theorem numeric_columns_read_back_witness :
    getCryptoById samplePlatform none [encodedRow] "bitcoin" =
      .ok (some (numericFields samplePlatform encodedRow.toJS)) ∧
    (∃ row, row ∈ [encodedRow] ∧ row.id = "bitcoin" ∧
      ReadBack row (numericFields samplePlatform encodedRow.toJS)) ∧
    (∃ crypto, getCryptoById samplePlatform none [encodedRow] encodedRow.id =
      .ok (some crypto)) :=
  ⟨rfl, (numeric_columns_read_back samplePlatform [encodedRow]).1 none "bitcoin" _ rfl,
    (numeric_columns_read_back samplePlatform [encodedRow]).2.1 encodedRow
      (List.mem_singleton.mpr rfl)⟩

/-! ## Cache failures -/

theorem getCryptos_outcome_of_miss (p : Platform) (env : Env) (w : World)
    (hmiss : cachedPayload p env w.redis "cryptos" = none) :
    outcome (getCryptos p env w) = outcome (getCryptos p env w.cacheClosed) := by
  obtain ⟨cryptoData, hfetch⟩ := fetchCryptocurrencies_ok p env.upstream
  rw [getCryptos_miss p env w cryptoData hmiss hfetch,
    getCryptos_miss p env w.cacheClosed cryptoData
      (cachedPayload_closed p env _ _ rfl) hfetch]
  rfl

theorem getCrypto_outcome_of_miss (p : Platform) (env : Env) (w : World) (id : String)
    (hmiss : cachedPayload p env w.redis ("crypto:" ++ id) = none) :
    outcome (getCrypto p env w id) = outcome (getCrypto p env w.cacheClosed id) := by
  rw [getCrypto_miss p env w id hmiss,
    getCrypto_miss p env w.cacheClosed id (cachedPayload_closed p env _ _ rfl)]
  show outcome (match getCryptoById p env.dbReadError w.store id with
      | .error error => (serverError "Failed to fetch cryptocurrency" error, w)
      | .ok none => (notFound id, w)
      | .ok (some crypto) =>
        (json crypto, { w with redis := cacheStore p env w.redis ("crypto:" ++ id) crypto })) =
    outcome (match getCryptoById p env.dbReadError w.store id with
      | .error error => (serverError "Failed to fetch cryptocurrency" error, w.cacheClosed)
      | .ok none => (notFound id, w.cacheClosed)
      | .ok (some crypto) =>
        (json crypto, { w.cacheClosed with
          redis := cacheStore p env w.cacheClosed.redis ("crypto:" ++ id) crypto }))
  rcases getCryptoById p env.dbReadError w.store id with e | _ | crypto <;> rfl

theorem getCryptos_redis_of_set_error (p : Platform) (env : Env) (w : World)
    (hmiss : cachedPayload p env w.redis "cryptos" = none)
    (hset : env.cacheSetError.isSome = true) : (getCryptos p env w).2.redis = w.redis := by
  obtain ⟨cryptoData, hfetch⟩ := fetchCryptocurrencies_ok p env.upstream
  rw [getCryptos_miss p env w cryptoData hmiss hfetch]
  exact cacheStore_set_error p env w.redis _ _ hset

theorem getCrypto_redis_of_set_error (p : Platform) (env : Env) (w : World) (id : String)
    (hmiss : cachedPayload p env w.redis ("crypto:" ++ id) = none)
    (hset : env.cacheSetError.isSome = true) : (getCrypto p env w id).2.redis = w.redis := by
  rw [getCrypto_miss p env w id hmiss]
  rcases getCryptoById p env.dbReadError w.store id with e | _ | crypto
  · rfl
  · rfl
  · exact cacheStore_set_error p env w.redis _ _ hset

theorem updateCryptoData_cacheClosed (p : Platform) (env : Env) (w : World) :
    (updateCryptoData p env w).1 = (updateCryptoData p env w.cacheClosed).1 ∧
    (updateCryptoData p env w).2.store = (updateCryptoData p env w.cacheClosed).2.store := by
  obtain ⟨cryptoData, hfetch⟩ := fetchCryptocurrencies_ok p env.upstream
  rw [updateCryptoData_eq p env w cryptoData hfetch,
    updateCryptoData_eq p env w.cacheClosed cryptoData hfetch]
  exact ⟨rfl, rfl⟩

theorem updateCryptoData_redis_of_set_error (p : Platform) (env : Env) (w : World)
    (hset : env.cacheSetError.isSome = true) : (updateCryptoData p env w).2.redis = w.redis := by
  obtain ⟨cryptoData, hfetch⟩ := fetchCryptocurrencies_ok p env.upstream
  rw [updateCryptoData_eq p env w cryptoData hfetch]
  exact cacheStore_set_error p env w.redis _ _ hset

/-- C10: cache failures are non-fatal at every call site.  When `redisClient.get`
throws, the cache read yields no payload, as on a miss, and both GET handlers give the
response and leave the table as they do with the connection not open.  When
`redisClient.setEx` throws, the cache is left as it was, as when the write is skipped,
and in a run that reaches the write both GET handlers and `updateCryptoData` give the
result and leave the table as they do with the connection not open. -/
theorem cache_failures_non_fatal (p : Platform) (env : Env) (w : World) (id : String) :
    (env.cacheGetError.isSome = true →
      (∀ key, cachedPayload p env w.redis key = none) ∧
      outcome (getCryptos p env w) = outcome (getCryptos p env w.cacheClosed) ∧
      outcome (getCrypto p env w id) = outcome (getCrypto p env w.cacheClosed id)) ∧
    (env.cacheSetError.isSome = true →
      (∀ key payload, cacheStore p env w.redis key payload = w.redis) ∧
      (cachedPayload p env w.redis "cryptos" = none →
        outcome (getCryptos p env w) = outcome (getCryptos p env w.cacheClosed) ∧
        (getCryptos p env w).2.redis = w.redis) ∧
      (cachedPayload p env w.redis ("crypto:" ++ id) = none →
        outcome (getCrypto p env w id) = outcome (getCrypto p env w.cacheClosed id) ∧
        (getCrypto p env w id).2.redis = w.redis) ∧
      (updateCryptoData p env w).1 = (updateCryptoData p env w.cacheClosed).1 ∧
      (updateCryptoData p env w).2.store = (updateCryptoData p env w.cacheClosed).2.store ∧
      (updateCryptoData p env w).2.redis = w.redis) := by
  refine ⟨fun hget => ⟨?_, ?_, ?_⟩,
    fun hset => ⟨?_, fun hmiss => ⟨?_, ?_⟩, fun hmiss => ⟨?_, ?_⟩, ?_, ?_, ?_⟩⟩
  · exact fun key => cachedPayload_get_error p env w.redis key hget
  · exact getCryptos_outcome_of_miss p env w (cachedPayload_get_error p env _ _ hget)
  · exact getCrypto_outcome_of_miss p env w id (cachedPayload_get_error p env _ _ hget)
  · exact fun key payload => cacheStore_set_error p env w.redis key payload hset
  · exact getCryptos_outcome_of_miss p env w hmiss
  · exact getCryptos_redis_of_set_error p env w hmiss hset
  · exact getCrypto_outcome_of_miss p env w id hmiss
  · exact getCrypto_redis_of_set_error p env w id hmiss hset
  · exact (updateCryptoData_cacheClosed p env w).1
  · exact (updateCryptoData_cacheClosed p env w).2
  · exact updateCryptoData_redis_of_set_error p env w hset

/-- C10 with Redis connected and both of its calls rejecting: the list handler answers as
it does with Redis not connected, here 200 with the fallback list. -/
theorem cache_failures_non_fatal_witness :
    openWorld.redis.isOpen = true ∧
    cacheErrorEnv.cacheGetError.isSome = true ∧
    cacheErrorEnv.cacheSetError.isSome = true ∧
    outcome (getCryptos samplePlatform cacheErrorEnv openWorld) =
      outcome (getCryptos samplePlatform cacheErrorEnv openWorld.cacheClosed) ∧
    (getCryptos samplePlatform cacheErrorEnv openWorld).1 =
      { status := 200, body := JSVal.arr getMockData } ∧
    (getCryptos samplePlatform cacheErrorEnv openWorld).2.redis = openWorld.redis ∧
    (updateCryptoData samplePlatform cacheErrorEnv openWorld).2.redis = openWorld.redis :=
  ⟨rfl, rfl, rfl,
    ((cache_failures_non_fatal samplePlatform cacheErrorEnv openWorld "bitcoin").1 rfl).2.1, rfl,
    (((cache_failures_non_fatal samplePlatform cacheErrorEnv openWorld "bitcoin").2 rfl).2.1
      rfl).2,
    ((cache_failures_non_fatal samplePlatform cacheErrorEnv openWorld "bitcoin").2 rfl).2.2.2.2.2⟩

/-! ## Cache hits -/

theorem cachedPayload_hit (p : Platform) (env : Env) (r : Redis) (key text : String)
    (payload : JSVal) (hopen : r.isOpen = true) (hget : env.cacheGetError = none)
    (hlookup : r.lookup env.now key = some text) (htext : text ≠ "")
    (hparse : p.parse text = .ok payload) :
    cachedPayload p env r key = some payload := by
  simp [cachedPayload, hopen, redisGet, hget, hlookup, htext, hparse]

theorem cachedPayload_some (p : Platform) (env : Env) (r : Redis) (key : String)
    (payload : JSVal) (h : cachedPayload p env r key = some payload) :
    r.isOpen = true ∧ env.cacheGetError = none ∧
    ∃ text, r.lookup env.now key = some text ∧ text ≠ "" ∧ p.parse text = .ok payload := by
  unfold cachedPayload at h
  split at h
  · rename_i hopen
    refine ⟨hopen, ?_⟩
    cases hget : env.cacheGetError with
    | some msg => simp [redisGet, hget] at h
    | none =>
      refine ⟨rfl, ?_⟩
      simp only [redisGet, hget] at h
      cases hl : r.lookup env.now key with
      | none => simp [hl] at h
      | some text =>
        simp only [hl] at h
        split at h
        · rename_i htext
          cases hp : p.parse text with
          | error e => simp [hp] at h
          | ok v =>
            simp only [hp, Option.some.injEq] at h
            exact ⟨text, rfl, htext, by rw [hp, h]⟩
        · simp at h
  · simp at h

theorem getCryptos_hit (p : Platform) (env : Env) (w : World) (payload : JSVal)
    (h : cachedPayload p env w.redis "cryptos" = some payload) :
    getCryptos p env w = (json payload, w) := by
  simp [getCryptos, h]

/-- C12: on a cache hit for key `cryptos` (client open, `get` returns a non-empty text
that parses to `payload`) the handler of `GET /api/cryptos` answers 200 with `payload`
and leaves the table and the cache as they were; the answer does not depend on the
provider, on the database or on `setEx`, none of which is reached. -/
theorem getCryptos_cache_hit (p : Platform) (env : Env) (w : World) (text : String)
    (payload : JSVal) (hopen : w.redis.isOpen = true) (hget : env.cacheGetError = none)
    (hlookup : w.redis.lookup env.now "cryptos" = some text) (htext : text ≠ "")
    (hparse : p.parse text = .ok payload) :
    getCryptos p env w = ({ status := 200, body := payload }, w) ∧
    (getCryptos p env w).2.store = w.store ∧
    (getCryptos p env w).2.redis = w.redis ∧
    ∀ upstream setError readError writeError,
      getCryptos p { env with upstream := upstream, cacheSetError := setError,
                              dbReadError := readError, dbWriteError := writeError } w =
        ({ status := 200, body := payload }, w) := by
  have hhit := cachedPayload_hit p env w.redis "cryptos" text payload hopen hget hlookup htext
    hparse
  refine ⟨getCryptos_hit p env w payload hhit, ?_, ?_, ?_⟩
  · rw [getCryptos_hit p env w payload hhit]
  · rw [getCryptos_hit p env w payload hhit]
  · intro upstream setError readError writeError
    exact getCryptos_hit p _ w payload
      (cachedPayload_hit p _ w.redis "cryptos" text payload hopen hget hlookup htext hparse)

set_option maxRecDepth 20000 in
/-- C12 with a live one-record list in the cache and the provider timing out. -/
theorem getCryptos_cache_hit_witness :
    cachedListWorld.redis.lookup quietEnv.now "cryptos" = some livePayloadText ∧
    getCryptos samplePlatform quietEnv cachedListWorld =
      ({ status := 200, body := JSVal.arr [renamedBitcoin] }, cachedListWorld) :=
  ⟨rfl, (getCryptos_cache_hit samplePlatform quietEnv cachedListWorld livePayloadText
    (JSVal.arr [renamedBitcoin]) rfl rfl rfl (by decide) rfl).1⟩

/-! ## Cache writes -/

theorem redisSetEx_ok (env : Env) (r r2 : Redis) (key value : String) (seconds : Int)
    (h : redisSetEx env r key seconds value = .ok r2) :
    env.cacheSetError = none ∧ 0 < seconds ∧
    r2 = { r with entries :=
      { key := key, value := value, expiresAt := env.now + seconds.toNat } ::
        r.entries.filter (fun e => e.key != key) } := by
  unfold redisSetEx at h
  cases hs : env.cacheSetError with
  | some msg => simp [hs] at h
  | none =>
    simp only [hs] at h
    split at h
    · simp at h
    · rename_i hpos
      exact ⟨rfl, by omega, (Except.ok.inj h).symm⟩

theorem redisSetEx_of_ok (env : Env) (r : Redis) (key value : String) (seconds : Int)
    (hset : env.cacheSetError = none) (hpos : 0 < seconds) :
    redisSetEx env r key seconds value =
      .ok { r with entries :=
        { key := key, value := value, expiresAt := env.now + seconds.toNat } ::
          r.entries.filter (fun e => e.key != key) } := by
  have : ¬ seconds ≤ 0 := by omega
  simp [redisSetEx, hset, this]

theorem lookup_after_set (r : Redis) (key value : String) (expiresAt t : Nat) :
    Redis.lookup
      { isOpen := r.isOpen,
        entries := { key := key, value := value, expiresAt := expiresAt } ::
          r.entries.filter (fun e => e.key != key) } t key =
      if t < expiresAt then some value else none := by
  unfold Redis.lookup
  by_cases ht : t < expiresAt
  · simp [List.find?, ht]
  · have hnone : List.find? (fun e => e.key == key && decide (t < e.expiresAt))
        (r.entries.filter (fun e => e.key != key)) = none := by
      rw [List.find?_eq_none]
      intro e he
      have := (List.mem_filter.mp he).2
      simp only [bne_iff_ne, ne_eq] at this
      simp [this]
    simp [List.find?, ht, hnone]

theorem cacheStore_accepted (p : Platform) (env : Env) (r : Redis) (key : String)
    (payload : JSVal) (hopen : r.isOpen = true) (hset : env.cacheSetError = none)
    (hpos : 0 < CACHE_TTL p) :
    cacheStore p env r key payload =
      { r with entries :=
        { key := key, value := p.stringify payload,
          expiresAt := env.now + (CACHE_TTL p).toNat } ::
          r.entries.filter (fun e => e.key != key) } := by
  simp [cacheStore, hopen, redisSetEx_of_ok env r key _ _ hset hpos]

theorem lookup_cacheStore (p : Platform) (env : Env) (r : Redis) (key : String)
    (payload : JSVal) (hopen : r.isOpen = true) (hset : env.cacheSetError = none)
    (hpos : 0 < CACHE_TTL p) (t : Nat) :
    (cacheStore p env r key payload).lookup t key =
      if t < env.now + (CACHE_TTL p).toNat then some (p.stringify payload) else none := by
  rw [cacheStore_accepted p env r key payload hopen hset hpos]
  exact lookup_after_set r key (p.stringify payload) (env.now + (CACHE_TTL p).toNat) t

theorem cacheStore_isOpen (p : Platform) (env : Env) (r : Redis) (key : String)
    (payload : JSVal) : (cacheStore p env r key payload).isOpen = r.isOpen := by
  unfold cacheStore
  split
  · cases h : redisSetEx env r key (CACHE_TTL p) (p.stringify payload) with
    | error e => rfl
    | ok r2 =>
      obtain ⟨_, _, hr2⟩ := redisSetEx_ok env r r2 key _ _ h
      simp [hr2]
  · rfl

theorem getCryptoById_some (p : Platform) (failure : Option String) (store : List Row)
    (id : String) (crypto : JSVal)
    (h : getCryptoById p failure store id = .ok (some crypto)) :
    failure = none ∧ ∃ row, row ∈ store ∧ row.id = id ∧ crypto = numericFields p row.toJS := by
  cases failure with
  | some msg => simp [getCryptoById] at h
  | none =>
    refine ⟨rfl, ?_⟩
    simp only [getCryptoById] at h
    cases hrows : List.filter (fun r => r.id == id) store with
    | nil => rw [hrows] at h; simp at h
    | cons row rest =>
      rw [hrows] at h
      simp only [List.head?_cons, Except.ok.injEq, Option.some.injEq] at h
      have hmem : row ∈ List.filter (fun r => r.id == id) store := by rw [hrows]; simp
      rw [List.mem_filter] at hmem
      exact ⟨row, hmem.1, by simpa using hmem.2, h.symm⟩

theorem getCryptoById_present (p : Platform) (store : List Row) (row : Row)
    (h : row ∈ store) : ∃ crypto, getCryptoById p none store row.id = .ok (some crypto) := by
  simp only [getCryptoById]
  cases hrows : List.filter (fun r => r.id == row.id) store with
  | nil =>
    have : row ∈ List.filter (fun r => r.id == row.id) store := by
      rw [List.mem_filter]; exact ⟨h, by simp⟩
    rw [hrows] at this
    simp at this
  | cons first rest => exact ⟨_, rfl⟩

theorem getCrypto_found (p : Platform) (env : Env) (w : World) (id : String) (crypto : JSVal)
    (hmiss : cachedPayload p env w.redis ("crypto:" ++ id) = none)
    (hread : getCryptoById p env.dbReadError w.store id = .ok (some crypto)) :
    getCrypto p env w id =
      (json crypto, { w with redis := cacheStore p env w.redis ("crypto:" ++ id) crypto }) := by
  rw [getCrypto_miss p env w id hmiss, hread]

/-- C13 (as amended): on a cache miss, when the read of the table returns the record
`crypto` for the id, the handler of `GET /api/cryptos/:id` answers 200 with that
record, which is the numeric read-back of a row of the table, whatever the provider
would answer; the table is unchanged; and when the client is open the handler issues
`setEx` for key `crypto:{id}` with `CACHE_TTL` and the serialised record, so that once
the write is accepted the key holds that text for `CACHE_TTL` seconds, exactly as key
`cryptos` does after the list handler.  For an id present in the table the read returns
a record unless the database rejects it. -/
theorem getCrypto_miss_reads_store (p : Platform) (env : Env) (w : World) (id : String)
    (crypto : JSVal)
    (hmiss : cachedPayload p env w.redis ("crypto:" ++ id) = none)
    (hread : getCryptoById p env.dbReadError w.store id = .ok (some crypto)) :
    (getCrypto p env w id).1 = { status := 200, body := crypto } ∧
    (∃ row, row ∈ w.store ∧ row.id = id ∧ crypto = numericFields p row.toJS) ∧
    (∀ upstream, getCrypto p { env with upstream := upstream } w id = getCrypto p env w id) ∧
    (getCrypto p env w id).2.store = w.store ∧
    (w.redis.isOpen = true →
      (getCrypto p env w id).2.redis =
        match redisSetEx env w.redis ("crypto:" ++ id) (CACHE_TTL p) (p.stringify crypto) with
        | .ok r2 => r2
        | .error _ => w.redis) ∧
    (w.redis.isOpen = true → env.cacheSetError = none → 0 < CACHE_TTL p →
      (∀ t, (getCrypto p env w id).2.redis.lookup t ("crypto:" ++ id) =
        if t < env.now + (CACHE_TTL p).toNat then some (p.stringify crypto) else none) ∧
      (∀ cryptoData, cachedPayload p env w.redis "cryptos" = none →
        fetchCryptocurrencies p env.upstream = .ok cryptoData →
        ∀ t, (getCryptos p env w).2.redis.lookup t "cryptos" =
          if t < env.now + (CACHE_TTL p).toNat then some (p.stringify (JSVal.arr cryptoData))
          else none)) ∧
    (∀ row, row ∈ w.store → ∃ found, getCryptoById p none w.store row.id = .ok (some found)) := by
  have hfound := getCrypto_found p env w id crypto hmiss hread
  refine ⟨by rw [hfound]; rfl, (getCryptoById_some p _ _ _ _ hread).2, ?_, by rw [hfound], ?_,
    ?_, fun row hrow => getCryptoById_present p w.store row hrow⟩
  · intro upstream
    rw [hfound]
    exact getCrypto_found p { env with upstream := upstream } w id crypto hmiss hread
  · intro hopen
    rw [hfound]
    simp [cacheStore, hopen]
  · intro hopen hset hpos
    refine ⟨fun t => ?_, fun cryptoData hlist hfetch t => ?_⟩
    · rw [hfound]
      exact lookup_cacheStore p env w.redis _ crypto hopen hset hpos t
    · rw [getCryptos_miss p env w cryptoData hlist hfetch]
      exact lookup_cacheStore p env w.redis _ _ hopen hset hpos t

/-- C13 for `GET /api/cryptos/bitcoin` on a table holding `bitcoinRow`, Redis connected
and empty, at time 100 with the default TTL of 60 seconds. -/
theorem getCrypto_miss_reads_store_witness :
    cachedPayload jsonPlatform quietEnv bitcoinWorld.redis ("crypto:" ++ "bitcoin") = none ∧
    (getCrypto jsonPlatform quietEnv bitcoinWorld "bitcoin").1 =
      { status := 200, body := numericFields jsonPlatform bitcoinRow.toJS } ∧
    (getCrypto jsonPlatform quietEnv bitcoinWorld "bitcoin").2.redis.lookup 159
        ("crypto:" ++ "bitcoin") =
      some (jsonStringify (numericFields jsonPlatform bitcoinRow.toJS)) ∧
    (getCrypto jsonPlatform quietEnv bitcoinWorld "bitcoin").2.redis.lookup 160
        ("crypto:" ++ "bitcoin") = none :=
  have h := getCrypto_miss_reads_store jsonPlatform quietEnv bitcoinWorld "bitcoin"
    (numericFields jsonPlatform bitcoinRow.toJS) rfl rfl
  ⟨rfl, h.1, ((h.2.2.2.2.2.1 rfl rfl (by decide)).1 159).trans rfl,
    ((h.2.2.2.2.2.1 rfl rfl (by decide)).1 160).trans rfl⟩

/-- C13 as stated fails: for an id present in the table and a cache miss, a rejected
database read gives 500 instead of the record; and with the client open, a rejected
`setEx` leaves the record out of the cache although the response is 200. -/
theorem getCrypto_present_id_other_outcomes :
    (rowsWithId bitcoinWorld.store "bitcoin" = [bitcoinRow] ∧
      cachedPayload jsonPlatform dbDownEnv bitcoinWorld.redis ("crypto:" ++ "bitcoin") = none ∧
      (getCrypto jsonPlatform dbDownEnv bitcoinWorld "bitcoin").1 =
        { status := 500,
          body := JSVal.obj [("error", JSVal.str "Failed to fetch cryptocurrency"),
                             ("details", JSVal.str "connect ECONNREFUSED")] }) ∧
    (bitcoinWorld.redis.isOpen = true ∧
      cachedPayload jsonPlatform cacheErrorEnv bitcoinWorld.redis ("crypto:" ++ "bitcoin") =
        none ∧
      (getCrypto jsonPlatform cacheErrorEnv bitcoinWorld "bitcoin").1 =
        { status := 200, body := numericFields jsonPlatform bitcoinRow.toJS } ∧
      (getCrypto jsonPlatform cacheErrorEnv bitcoinWorld "bitcoin").2.redis.entries = []) :=
  ⟨⟨rfl, rfl, rfl⟩, ⟨rfl, rfl, rfl, rfl⟩⟩

/-! ## Cache round trip of the list payload -/

theorem served_within_ttl (p : Platform) (env2 : Env) (w1 : World) (text : String)
    (served : JSVal) (hopen : w1.redis.isOpen = true) (hget : env2.cacheGetError = none)
    (hlookup : w1.redis.lookup env2.now "cryptos" = some text) (htext : text ≠ "")
    (hparse : p.parse text = .ok served) :
    getCryptos p env2 w1 = (json served, w1) :=
  getCryptos_hit p env2 w1 served
    (cachedPayload_hit p env2 w1.redis "cryptos" text served hopen hget hlookup htext hparse)

theorem cachedPayload_lookup_none (p : Platform) (env : Env) (r : Redis) (key : String)
    (h : r.lookup env.now key = none) : cachedPayload p env r key = none := by
  unfold cachedPayload
  split
  · cases hget : env.cacheGetError with
    | some msg => simp [redisGet, hget]
    | none => simp [redisGet, hget, h]
  · rfl

theorem round_trip_from (p : Platform) (env1 env2 : Env) (r : Redis) (store : List Row)
    (cryptoData : List JSVal) (served : JSVal)
    (hopen : r.isOpen = true) (hset : env1.cacheSetError = none) (hpos : 0 < CACHE_TTL p)
    (hget : env2.cacheGetError = none)
    (htext : p.stringify (JSVal.arr cryptoData) ≠ "")
    (hparse : p.parse (p.stringify (JSVal.arr cryptoData)) = .ok served) (w1 : World)
    (hw1 : w1 = { redis := cacheStore p env1 r "cryptos" (JSVal.arr cryptoData),
                  store := store }) :
    (env2.now < env1.now + (CACHE_TTL p).toNat → getCryptos p env2 w1 = (json served, w1)) ∧
    (env1.now + (CACHE_TTL p).toNat ≤ env2.now →
      w1.redis.lookup env2.now "cryptos" = none ∧
      cachedPayload p env2 w1.redis "cryptos" = none) := by
  subst hw1
  have hl := lookup_cacheStore p env1 r "cryptos" (JSVal.arr cryptoData) hopen hset hpos env2.now
  constructor
  · intro hin
    rw [if_pos hin] at hl
    exact served_within_ttl p env2 _ _ served
      (by rw [cacheStore_isOpen]; exact hopen) hget hl htext hparse
  · intro hout
    have : ¬ env2.now < env1.now + (CACHE_TTL p).toNat := by omega
    rw [if_neg this] at hl
    exact ⟨hl, cachedPayload_lookup_none p env2 _ _ hl⟩

/-- C11: cache round trip of the list payload.  Let `cryptoData` be the payload the miss
path of `GET /api/cryptos` or `updateCryptoData` stores under key `cryptos` at time
`env1.now` (client open, `setEx` accepted), as the text `JSON.stringify` writes for it,
and let `served` be what `JSON.parse` reads from that text, a value that serialises to
the same text.  A `GET /api/cryptos` on the resulting world at a time before
`env1.now + CACHE_TTL` finds that text under the key and is served from the cache: it
answers 200, changes nothing, and the payload it sends is the JSON text of `cryptoData`,
the one the miss path sends; the body in memory is `cryptoData` itself when `JSON.parse`
inverts `JSON.stringify` on it.  From time `env1.now + CACHE_TTL` on the lookup is a
miss. -/
theorem list_cache_round_trip (p : Platform) (env1 env2 : Env) (w w1 : World)
    (cryptoData : List JSVal) (served : JSVal)
    (hopen : w.redis.isOpen = true) (hset : env1.cacheSetError = none)
    (hpos : 0 < CACHE_TTL p)
    (hfetch : fetchCryptocurrencies p env1.upstream = .ok cryptoData)
    (hw1 : (cachedPayload p env1 w.redis "cryptos" = none ∧ w1 = (getCryptos p env1 w).2) ∨
      w1 = (updateCryptoData p env1 w).2)
    (hget : env2.cacheGetError = none)
    (htext : p.stringify (JSVal.arr cryptoData) ≠ "")
    (hparse : p.parse (p.stringify (JSVal.arr cryptoData)) = .ok served)
    (hsame : p.stringify served = p.stringify (JSVal.arr cryptoData)) :
    (env2.now < env1.now + (CACHE_TTL p).toNat →
      w1.redis.lookup env2.now "cryptos" = some (p.stringify (JSVal.arr cryptoData)) ∧
      getCryptos p env2 w1 = ({ status := 200, body := served }, w1) ∧
      wire p (getCryptos p env2 w1).1 = p.stringify (JSVal.arr cryptoData) ∧
      wire p (getCryptos p env2 w1).1 = wire p (json (JSVal.arr cryptoData)) ∧
      (served = JSVal.arr cryptoData →
        (getCryptos p env2 w1).1 = json (JSVal.arr cryptoData))) ∧
    (env1.now + (CACHE_TTL p).toNat ≤ env2.now →
      w1.redis.lookup env2.now "cryptos" = none ∧
      cachedPayload p env2 w1.redis "cryptos" = none) := by
  have hw : w1 = { redis := cacheStore p env1 w.redis "cryptos" (JSVal.arr cryptoData),
                   store := w1.store } := by
    rcases hw1 with ⟨hmiss, h⟩ | h
    · rw [h, getCryptos_miss p env1 w cryptoData hmiss hfetch]
    · rw [h, updateCryptoData_eq p env1 w cryptoData hfetch]
  obtain ⟨hin, hout⟩ := round_trip_from p env1 env2 w.redis w1.store cryptoData served
    hopen hset hpos hget htext hparse w1 hw
  refine ⟨fun ht => ?_, hout⟩
  have hserved := hin ht
  have hl := lookup_cacheStore p env1 w.redis "cryptos" (JSVal.arr cryptoData) hopen hset hpos
    env2.now
  rw [if_pos ht] at hl
  refine ⟨?_, hserved, ?_, ?_, fun heq => ?_⟩
  · rw [hw]; exact hl
  · rw [hserved]; exact hsame
  · rw [hserved]; exact hsame
  · rw [hserved, heq]

theorem jsonStringify_arr_ne (items : List JSVal) : jsonStringify (JSVal.arr items) ≠ "" := by
  intro h
  have := congrArg String.length h
  simp only [jsonStringify, String.length_append] at this
  have h1 : "[".length = 1 := by decide
  have h0 : "".length = 0 := by decide
  omega

set_option maxRecDepth 1000000 in
set_option maxHeartbeats 4000000 in
/-- C11 with the fallback list stored by the miss path at time 100 under the default TTL
of 60 seconds: served unchanged at time 130, a miss at time 160.  With a provider record
that has no `name` (the miss run answers 500, the upsert being refused, after the payload
is cached), the body served at time 130 lacks the property `name`, which `JSON.stringify`
does not write, and the JSON text sent is that of the payload stored. -/
theorem list_cache_round_trip_witness :
    (getCryptos jsonPlatform (quietAt 130) (getCryptos jsonPlatform quietEnv openWorld).2 =
      ({ status := 200, body := JSVal.arr getMockData },
        (getCryptos jsonPlatform quietEnv openWorld).2)) ∧
    (cachedPayload jsonPlatform (quietAt 160)
      (getCryptos jsonPlatform quietEnv openWorld).2.redis "cryptos" = none) ∧
    fetchCryptocurrencies jsonPlatform namelessEnv.upstream = .ok [namelessRecord] ∧
    (getCryptos jsonPlatform namelessEnv openWorld).1.status = 500 ∧
    (getCryptos jsonPlatform (quietAt 130) (getCryptos jsonPlatform namelessEnv openWorld).2).1 =
      { status := 200, body := JSVal.arr [namelessParsed] } ∧
    (wire jsonPlatform
        (getCryptos jsonPlatform (quietAt 130)
          (getCryptos jsonPlatform namelessEnv openWorld).2).1 =
      wire jsonPlatform (json (JSVal.arr [namelessRecord]))) :=
  have h130 := (list_cache_round_trip jsonPlatform quietEnv (quietAt 130) openWorld
    (getCryptos jsonPlatform quietEnv openWorld).2 getMockData (JSVal.arr getMockData)
    rfl rfl (by decide) rfl (Or.inl ⟨rfl, rfl⟩) rfl (jsonStringify_arr_ne _)
    (by with_unfolding_all rfl) rfl).1 (by decide)
  have h160 := (list_cache_round_trip jsonPlatform quietEnv (quietAt 160) openWorld
    (getCryptos jsonPlatform quietEnv openWorld).2 getMockData (JSVal.arr getMockData)
    rfl rfl (by decide) rfl (Or.inl ⟨rfl, rfl⟩) rfl (jsonStringify_arr_ne _)
    (by with_unfolding_all rfl) rfl).2 (by decide)
  have hname := (list_cache_round_trip jsonPlatform namelessEnv (quietAt 130) openWorld
    (getCryptos jsonPlatform namelessEnv openWorld).2 [namelessRecord]
    (JSVal.arr [namelessParsed])
    rfl rfl (by decide) (by with_unfolding_all rfl) (Or.inl ⟨rfl, rfl⟩) rfl
    (jsonStringify_arr_ne _)
    (by with_unfolding_all rfl) (by with_unfolding_all rfl)).1 (by decide)
  ⟨h130.2.1, h160.2, by with_unfolding_all rfl, by with_unfolding_all rfl,
    by rw [hname.2.1], hname.2.2.2.1⟩

/-! ## The mapping of provider data -/

theorem numericFrom_or (v : JSVal) : NumericFrom v (v.or zero) := by
  constructor
  · intro n hv hn
    subst hv
    cases n with
    | nan => exact absurd rfl hn
    | inf b => rfl
    | fin q =>
      by_cases hq : q = 0
      · subst hq
        simp [JSVal.or, JSVal.truthy, zero]
      · simp [JSVal.or, JSVal.truthy, hq]
  · rintro (h | h) <;> subst h <;> rfl

theorem field_record (k : String) (id name symbol cp mc tv pct image : JSVal) :
    (record id name symbol cp mc tv pct image).field k =
      lookupField k
        [("id", id), ("name", name), ("symbol", symbol), ("current_price", cp),
         ("market_cap", mc), ("total_volume", tv), ("price_change_percentage_24h", pct),
         ("image", image)] := rfl

theorem mapMarket_mappedFrom (p : Platform) (crypto r : JSVal)
    (h : mapMarket p crypto = .ok r) : MappedFrom p crypto r := by
  cases crypto with
  | obj fields =>
    simp only [mapMarket, JSVal.prop, bind, Except.bind, pure, Except.pure] at h
    cases hs : lookupField "symbol" fields with
    | str s =>
      simp only [hs, toUpperCase, Except.ok.injEq] at h
      subst h
      refine ⟨rfl, rfl, ⟨s, ?_, rfl⟩, ?_, ?_, ?_, ?_, ?_, ?_⟩
      · simp [JSVal.field, JSVal.prop, hs]
      · exact numericFrom_or _
      · exact numericFrom_or _
      · exact numericFrom_or _
      · exact numericFrom_or _
      · intro t ht hne
        simp only [JSVal.field, JSVal.prop] at ht
        simp [field_record, lookupField, ht, JSVal.or, JSVal.truthy, hne]
      · intro ht
        simp only [JSVal.field, JSVal.prop] at ht
        rcases ht with ht | ht | ht <;>
          simp [field_record, lookupField, ht, JSVal.or, JSVal.truthy]
    | _ => simp [hs, toUpperCase] at h
  | _ => simp [mapMarket, JSVal.prop, bind, Except.bind, toUpperCase, typeError] at h

theorem arrayMap_forall₂ (p : Platform) (items out : List JSVal)
    (h : arrayMap (mapMarket p) items = .ok out) :
    List.Forall₂ (MappedFrom p) items out := by
  induction items generalizing out with
  | nil =>
    simp only [arrayMap, Except.ok.injEq] at h
    subst h
    exact List.Forall₂.nil
  | cons x rest ih =>
    simp only [arrayMap] at h
    cases hx : mapMarket p x with
    | error e => simp [hx] at h
    | ok y =>
      cases hr : arrayMap (mapMarket p) rest with
      | error e => simp [hx, hr] at h
      | ok ys =>
        simp only [hx, hr, Except.ok.injEq] at h
        subst h
        exact List.Forall₂.cons (mapMarket_mappedFrom p x y hx) (ih ys hr)

/-- C14: on success (status 200 with an array of market objects each carrying a string
symbol) `fetchCryptocurrencies` returns a list of the same length and order in which
every record copies `id` and `name`, has the symbol that `toUpperCase` of the language
gives for the provider's symbol (whatever characters it holds), has each numeric field
equal to the provider's number when there is one and `0` when it is missing, and has
`image` kept or defaulted to the empty string. -/
theorem fetchCryptocurrencies_maps (p : Platform) (items : List JSVal)
    (hitems : items.all mappableMarket = true) :
    ∃ cryptoData,
      fetchCryptocurrencies p (.resolved 200 (JSVal.arr items)) = .ok cryptoData ∧
      cryptoData.length = items.length ∧
      List.Forall₂ (MappedFrom p) items cryptoData := by
  obtain ⟨out, hout⟩ := arrayMap_ok_of_all p items hitems
  have hfetch : fetchCryptocurrencies p (.resolved 200 (JSVal.arr items)) = .ok out := by
    simp [fetchCryptocurrencies, fetchTry, hout]
  have hall := arrayMap_forall₂ p items out hout
  exact ⟨out, hfetch, hall.length_eq.symm, hall⟩

/-- C14 for a one-object body without `name` and with `current_price` only, and for a
symbol outside ASCII on a platform whose case mapping turns `ßéx` into `SSÉX`. -/
theorem fetchCryptocurrencies_maps_witness :
    fetchCryptocurrencies jsonPlatform namelessEnv.upstream = .ok [namelessRecord] ∧
    (∃ cryptoData, fetchCryptocurrencies jsonPlatform namelessEnv.upstream = .ok cryptoData ∧
      cryptoData.length = 1 ∧
      List.Forall₂ (MappedFrom jsonPlatform)
        [JSVal.obj [("id", .str "bitcoin"), ("symbol", .str "btc"),
                    ("current_price", lit 50000)]] cryptoData) ∧
    fetchCryptocurrencies sharpPlatform sharpResponse =
      .ok [record (.str "sharp") .undefined (.str "SSÉX") zero zero zero zero (.str "")] ∧
    (∃ cryptoData, fetchCryptocurrencies sharpPlatform sharpResponse = .ok cryptoData ∧
      cryptoData.length = 1 ∧
      List.Forall₂ (MappedFrom sharpPlatform)
        [JSVal.obj [("id", .str "sharp"), ("symbol", .str "ßéx")]] cryptoData) :=
  ⟨by with_unfolding_all rfl, fetchCryptocurrencies_maps jsonPlatform _ rfl,
    by with_unfolding_all rfl, fetchCryptocurrencies_maps sharpPlatform _ rfl⟩

/-! ## Status codes -/

theorem upsertCrypto_error_store (p : Platform) (failure : Option String) (now : Nat)
    (store store2 : List Row) (crypto : JSVal) (e : JSError)
    (h : upsertCrypto p failure now store crypto = .error e) :
    upsertCrypto p failure now store2 crypto = .error e := by
  cases failure with
  | some msg => simpa [upsertCrypto] using h
  | none =>
    cases hk : recordKey p crypto with
    | some key =>
      rw [upsertCrypto_of_key p now store crypto key hk] at h
      exact absurd h (by simp)
    | none =>
      cases crypto <;>
        simp only [recordKey, JSVal.prop] at hk <;>
        simp only [upsertCrypto, JSVal.prop, bind, Except.bind, pure, Except.pure, hk] at h ⊢ <;>
        exact h

theorem persistFrom_error (p : Platform) (env : Env) (cryptoData : List JSVal) :
    ∀ (i : Nat) (store : List Row) (e : JSError),
      (persistFrom p env i store cryptoData).1 = some e →
      ∃ j crypto, cryptoData[j]? = some crypto ∧
        ∀ store2, upsertCrypto p (env.dbWriteError (i + j)) env.now store2 crypto = .error e := by
  induction cryptoData with
  | nil => intro i store e h; simp [persistFrom] at h
  | cons c rest ih =>
    intro i store e h
    simp only [persistFrom] at h
    cases hup : upsertCrypto p (env.dbWriteError i) env.now store c with
    | error e2 =>
      rw [hup] at h
      simp only [Option.some.injEq] at h
      subst h
      exact ⟨0, c, by simp, fun store2 => upsertCrypto_error_store p _ _ _ _ _ _ hup⟩
    | ok store2 =>
      rw [hup] at h
      obtain ⟨j, crypto, hj, hthrow⟩ := ih (i + 1) store2 e h
      refine ⟨j + 1, crypto, by simpa using hj, fun s => ?_⟩
      rw [show i + (j + 1) = i + 1 + j by omega]
      exact hthrow s

theorem persistFrom_throws (p : Platform) (env : Env) (cryptoData : List JSVal) (i j : Nat)
    (store store2 : List Row) (crypto : JSVal) (e : JSError)
    (hj : cryptoData[j]? = some crypto)
    (hthrow : upsertCrypto p (env.dbWriteError (i + j)) env.now store2 crypto = .error e) :
    ∃ e2, (persistFrom p env i store cryptoData).1 = some e2 := by
  cases h : (persistFrom p env i store cryptoData).1 with
  | some e2 => exact ⟨e2, rfl⟩
  | none =>
    obtain ⟨hfail, hkey⟩ := (persistFrom_ok_iff p env cryptoData i store).mp h j crypto hj
    obtain ⟨key, hk⟩ := Option.isSome_iff_exists.mp hkey
    rw [hfail, upsertCrypto_of_key p env.now store2 crypto key hk] at hthrow
    exact absurd hthrow (by simp)

/-- C15: every response of the three `/api` handlers has status 200, 404 or 500, and
404 comes from the get-by-id handler only.  When `getCryptoById` throws, or when an
`upsertCrypto` call of the awaited batch throws, the response is 500 with body
`{error, details}` whose `details` is the message of a thrown error. -/
theorem handler_statuses (p : Platform) (env : Env) (w : World) (id : String) :
    ((getCryptos p env w).1.status = 200 ∨ (getCryptos p env w).1.status = 500) ∧
    ((getCrypto p env w id).1.status = 200 ∨ (getCrypto p env w id).1.status = 404 ∨
      (getCrypto p env w id).1.status = 500) ∧
    ((postUpdate p env w).1.status = 200 ∨ (postUpdate p env w).1.status = 500) ∧
    (∀ e, cachedPayload p env w.redis ("crypto:" ++ id) = none →
      getCryptoById p env.dbReadError w.store id = .error e →
      (getCrypto p env w id).1 =
        { status := 500,
          body := JSVal.obj [("error", JSVal.str "Failed to fetch cryptocurrency"),
                             ("details", JSVal.str e.message)] }) ∧
    (∀ cryptoData j crypto e store2,
      fetchCryptocurrencies p env.upstream = .ok cryptoData →
      cryptoData[j]? = some crypto →
      upsertCrypto p (env.dbWriteError j) env.now store2 crypto = .error e →
      (cachedPayload p env w.redis "cryptos" = none →
        ∃ thrown k failed, cryptoData[k]? = some failed ∧
          upsertCrypto p (env.dbWriteError k) env.now store2 failed = .error thrown ∧
          (getCryptos p env w).1 =
            { status := 500,
              body := JSVal.obj [("error", JSVal.str "Failed to fetch cryptocurrency data"),
                                 ("details", JSVal.str thrown.message)] }) ∧
      (∃ thrown k failed, cryptoData[k]? = some failed ∧
        upsertCrypto p (env.dbWriteError k) env.now store2 failed = .error thrown ∧
        (postUpdate p env w).1 =
          { status := 500,
            body := JSVal.obj [("error", JSVal.str "Failed to update cryptocurrency data"),
                               ("details", JSVal.str thrown.message)] })) := by
  obtain ⟨data, hdata⟩ := fetchCryptocurrencies_ok p env.upstream
  refine ⟨?_, ?_, ?_, ?_, ?_⟩
  · cases hc : cachedPayload p env w.redis "cryptos" with
    | some payload => rw [getCryptos_hit p env w payload hc]; exact Or.inl rfl
    | none =>
      rw [getCryptos_miss p env w data hc hdata]
      cases (persistAll p env w.store data).1 with
      | none => exact Or.inl rfl
      | some e => exact Or.inr rfl
  · cases hc : cachedPayload p env w.redis ("crypto:" ++ id) with
    | some payload => simp [getCrypto, hc, json]
    | none =>
      rw [getCrypto_miss p env w id hc]
      rcases getCryptoById p env.dbReadError w.store id with e | _ | crypto
      · exact Or.inr (Or.inr rfl)
      · exact Or.inr (Or.inl rfl)
      · exact Or.inl rfl
  · simp only [postUpdate, updateCryptoData_eq p env w data hdata]
    cases (persistAll p env w.store data).1 with
    | none => exact Or.inl rfl
    | some e => exact Or.inr rfl
  · intro e hc hread
    rw [getCrypto_miss p env w id hc, hread]
    rfl
  · intro cryptoData j crypto e store2 hfetch hj hthrow
    obtain ⟨e2, he2⟩ := persistFrom_throws p env cryptoData 0 j w.store store2 crypto e hj
      (by rwa [Nat.zero_add])
    obtain ⟨k, failed, hk, hfailed⟩ := persistFrom_error p env cryptoData 0 w.store e2 he2
    have hfailed2 := hfailed store2
    rw [Nat.zero_add] at hfailed2
    refine ⟨fun hc => ⟨e2, k, failed, hk, hfailed2, ?_⟩, ⟨e2, k, failed, hk, hfailed2, ?_⟩⟩
    · rw [getCryptos_miss p env w cryptoData hc hfetch]
      simp only [persistAll, he2]
      rfl
    · simp only [postUpdate, updateCryptoData_eq p env w cryptoData hfetch, persistAll, he2]
      rfl

/-- C15 with the database unreachable: the three handlers answer 500 with the message of
the database error. -/
theorem handler_statuses_witness :
    (getCrypto samplePlatform dbDownEnv emptyWorld "bitcoin").1 =
      { status := 500,
        body := JSVal.obj [("error", JSVal.str "Failed to fetch cryptocurrency"),
                           ("details", JSVal.str "connect ECONNREFUSED")] } ∧
    (getCryptos samplePlatform dbDownEnv emptyWorld).1 =
      { status := 500,
        body := JSVal.obj [("error", JSVal.str "Failed to fetch cryptocurrency data"),
                           ("details", JSVal.str "connect ECONNREFUSED")] } ∧
    (postUpdate samplePlatform dbDownEnv emptyWorld).1 =
      { status := 500,
        body := JSVal.obj [("error", JSVal.str "Failed to update cryptocurrency data"),
                           ("details", JSVal.str "connect ECONNREFUSED")] } ∧
    ∃ thrown k failed, getMockData[k]? = some failed ∧
      upsertCrypto samplePlatform (dbDownEnv.dbWriteError k) dbDownEnv.now [] failed =
        .error thrown ∧
      (postUpdate samplePlatform dbDownEnv emptyWorld).1 =
        { status := 500,
          body := JSVal.obj [("error", JSVal.str "Failed to update cryptocurrency data"),
                             ("details", JSVal.str thrown.message)] } :=
  have h := handler_statuses samplePlatform dbDownEnv emptyWorld "bitcoin"
  ⟨h.2.2.2.1 { message := "connect ECONNREFUSED" } rfl rfl, rfl, rfl,
    (h.2.2.2.2 getMockData 0 _ { message := "connect ECONNREFUSED" } [] rfl rfl rfl).2⟩

/-! ## Server start -/

/-- C16 (as amended): `startServer` ends in `process.exit(1)` without listening exactly
when `testConnection()` returns false, or `initializeDatabase()` throws, or the first
`updateCryptoData()` throws; in every other case the server listens. -/
theorem startServer_fatal_iff (p : Platform) (b : BootEnv) (env : Env) (w : World) :
    ((startServer p b env w).1 = BootOutcome.exited 1 ↔
      (testConnection b = false ∨ (∃ e, initializeDatabase b = .error e) ∨
        ∃ e, (updateCryptoData p env w).1 = .error e)) ∧
    ((startServer p b env w).1 = BootOutcome.listening ∨
      (startServer p b env w).1 = BootOutcome.exited 1) := by
  unfold startServer
  cases ht : testConnection b with
  | false => simp
  | true =>
    cases hi : initializeDatabase b with
    | error e => simp
    | ok u =>
      rcases hu : updateCryptoData p env w with ⟨res, w2⟩
      cases res with
      | error e => simp
      | ok n => simp

/-- C16 as stated fails: with the connectivity check passing and the table created, a
rejected upsert in the first data update ends the process with `process.exit(1)`; so
does a failure of `initializeDatabase()`. -/
theorem startServer_exits_after_check_passed :
    testConnection quietBoot = true ∧
    (startServer samplePlatform quietBoot oneUpsertFailsEnv openWorld).1 =
      BootOutcome.exited 1 ∧
    testConnection { quietBoot with initError := some "CREATE command denied" } = true ∧
    (startServer samplePlatform { quietBoot with initError := some "CREATE command denied" }
      quietEnv openWorld).1 = BootOutcome.exited 1 :=
  ⟨rfl, rfl, rfl, rfl⟩

/-! ## The retry strategy -/

/-- C17: `retry_strategy` returns a delay exactly when the last error is not
ECONNREFUSED, `total_retry_time` is at most 3,600,000 ms and `attempt` is at most 3; the
delay is then `min(attempt * 100, 3000)`, at most 3000 ms; in every other case it
returns an `Error` or `undefined`. -/
theorem retry_strategy_bounded (options : RetryOptions) :
    (∀ ms, retry_strategy options = .delay ms →
      ¬ options.refused ∧ options.total_retry_time ≤ 3600000 ∧ options.attempt ≤ 3 ∧
      ms = min (options.attempt * 100) 3000 ∧ ms ≤ 3000) ∧
    (¬ options.refused → options.total_retry_time ≤ 3600000 → options.attempt ≤ 3 →
      retry_strategy options = .delay (min (options.attempt * 100) 3000)) ∧
    (¬ (¬ options.refused ∧ options.total_retry_time ≤ 3600000 ∧ options.attempt ≤ 3) →
      (∃ e, retry_strategy options = .error e) ∨ retry_strategy options = .undefined) := by
  have hrefused : options.refused ↔
      (match options.error with
        | some e => decide (e.code = some "ECONNREFUSED")
        | none => false) = true := by
    unfold RetryOptions.refused
    cases options.error with
    | none => simp
    | some e => simp
  unfold retry_strategy
  split_ifs with h1 h2 h3
  · have hr : options.refused := hrefused.mpr h1
    exact ⟨fun ms h => by simp at h, fun hn => absurd hr hn, fun _ => Or.inl ⟨_, rfl⟩⟩
  · exact ⟨fun ms h => by simp at h, fun _ ht => by omega, fun _ => Or.inl ⟨_, rfl⟩⟩
  · exact ⟨fun ms h => by simp at h, fun _ _ ha => by omega, fun _ => Or.inr rfl⟩
  · have hr : ¬ options.refused := fun h => h1 (hrefused.mp h)
    refine ⟨fun ms h => ?_, fun _ _ _ => rfl, fun hn => ?_⟩
    · simp only [RetryDecision.delay.injEq] at h
      refine ⟨hr, by omega, by omega, h.symm, ?_⟩
      rw [← h]
      exact min_le_right _ _
    · exact absurd ⟨hr, by omega, by omega⟩ hn

/-- C17 at the second attempt after 500 ms with a timeout error: a delay of 200 ms; and
at a refused connection: an `Error`. -/
theorem retry_strategy_bounded_witness :
    retry_strategy
        { error := some { message := "timeout", code := some "ETIMEDOUT" },
          total_retry_time := 500, attempt := 2 } = .delay 200 ∧
    (∃ e, retry_strategy
        { error := some { message := "refused", code := some "ECONNREFUSED" },
          total_retry_time := 500, attempt := 2 } = .error e) :=
  ⟨(retry_strategy_bounded
      { error := some { message := "timeout", code := some "ETIMEDOUT" },
        total_retry_time := 500, attempt := 2 }).2.1
      (by rintro ⟨e, he, hc⟩; cases he; exact absurd hc (by decide))
      (by decide) (by decide),
    ((retry_strategy_bounded
      { error := some { message := "refused", code := some "ECONNREFUSED" },
        total_retry_time := 500, attempt := 2 }).2.2
      (fun h => h.1 ⟨_, rfl, rfl⟩)).resolve_right (by simp [retry_strategy])⟩

/-! ## The fallback data -/

/-- C19: `getMockData()` has exactly five records; their ids are pairwise distinct and
are, in order, the tracked list `CRYPTO_IDS` (bitcoin, ethereum, litecoin, cardano,
solana); every record has an upper-case symbol and non-negative `current_price`,
`market_cap` and `total_volume`. -/
theorem getMockData_shape :
    getMockData.length = 5 ∧
    getMockData.map recordId = CRYPTO_IDS.map some ∧
    CRYPTO_IDS = ["bitcoin", "ethereum", "litecoin", "cardano", "solana"] ∧
    CRYPTO_IDS.Nodup ∧
    ∀ r, r ∈ getMockData →
      upperCaseSymbol r = true ∧ nonNegativeField r "current_price" = true ∧
      nonNegativeField r "market_cap" = true ∧ nonNegativeField r "total_volume" = true := by
  refine ⟨rfl, rfl, rfl, by decide, ?_⟩
  intro r hr
  simp only [getMockData, List.mem_cons, List.mem_singleton, List.not_mem_nil, or_false] at hr
  rcases hr with h | h | h | h | h <;> subst h <;>
    refine ⟨by decide, ?_, ?_, ?_⟩ <;>
    simp [nonNegativeField, JSVal.field, JSVal.prop, record, lookupField, lit] <;> norm_num

/-- C19 at the first fallback record: `BTC`, with a price of 43250.50. -/
theorem getMockData_shape_witness :
    (∃ r, getMockData.head? = some r ∧ upperCaseSymbol r = true ∧
      nonNegativeField r "current_price" = true ∧ r.field "symbol" = JSVal.str "BTC" ∧
      r.field "current_price" = lit 43250.50) :=
  ⟨_, rfl, (getMockData_shape.2.2.2.2 _ (List.Mem.head _)).1,
    (getMockData_shape.2.2.2.2 _ (List.Mem.head _)).2.1, rfl, rfl⟩

/-! ## The by-id cache invariant -/

theorem byId_key_injective (id id2 : String) (h : "crypto:" ++ id = "crypto:" ++ id2) :
    id = id2 := by
  have hd := congrArg String.data h
  simp only [String.data_append] at hd
  exact String.ext (List.append_cancel_left hd)

theorem list_key_ne_byId (id : String) : "cryptos" ≠ "crypto:" ++ id := by
  intro h
  have hd := congrArg String.data h
  simp only [String.data_append] at hd
  have h7 := congrArg (fun l => l.get? 6) hd
  simp at h7

theorem cacheStore_entries (p : Platform) (env : Env) (r : Redis) (key : String)
    (payload : JSVal) (e : CacheEntry) (he : e ∈ (cacheStore p env r key payload).entries) :
    e ∈ r.entries ∨ (e.key = key ∧ e.value = p.stringify payload) := by
  unfold cacheStore at he
  split at he
  · cases hset : redisSetEx env r key (CACHE_TTL p) (p.stringify payload) with
    | error err => rw [hset] at he; exact Or.inl he
    | ok r2 =>
      rw [hset] at he
      obtain ⟨_, _, hr2⟩ := redisSetEx_ok env r r2 key _ _ hset
      rw [hr2] at he
      simp only [List.mem_cons] at he
      rcases he with h | h
      · exact Or.inr (by rw [h]; exact ⟨rfl, rfl⟩)
      · exact Or.inl (List.mem_filter.mp h).1
  · exact Or.inl he

theorem cacheInv_of_list_write (p : Platform) (env : Env) (w : World) (payload : JSVal)
    (store2 : List Row) (hinv : CacheInv p w)
    (hids : ∀ id, (∃ row, row ∈ w.store ∧ row.id = id) → ∃ row, row ∈ store2 ∧ row.id = id) :
    CacheInv p { redis := cacheStore p env w.redis "cryptos" payload, store := store2 } := by
  intro e he id hkey
  rcases cacheStore_entries p env w.redis "cryptos" payload e he with hold | ⟨hk, _⟩
  · obtain ⟨hrow, hval⟩ := hinv e hold id hkey
    exact ⟨hids id hrow, hval⟩
  · exact absurd (hk.symm.trans hkey) (list_key_ne_byId id)

theorem cacheInv_step (p : Platform) (w w2 : World) (hreach : Reachable p w)
    (hinv : CacheInv p w) (hstep : Step p w w2) : CacheInv p w2 := by
  cases hstep with
  | list env =>
    obtain ⟨data, hdata⟩ := fetchCryptocurrencies_ok p env.upstream
    cases hc : cachedPayload p env w.redis "cryptos" with
    | some payload => rw [getCryptos_hit p env w payload hc]; exact hinv
    | none =>
      rw [getCryptos_miss p env w data hc hdata]
      exact cacheInv_of_list_write p env w _ _ hinv
        (fun id h => persistFrom_keeps_ids p env data 0 w.store id h)
  | update env =>
    obtain ⟨data, hdata⟩ := fetchCryptocurrencies_ok p env.upstream
    rw [updateCryptoData_eq p env w data hdata]
    exact cacheInv_of_list_write p env w _ _ hinv
      (fun id h => persistFrom_keeps_ids p env data 0 w.store id h)
  | @byId env _ id =>
    cases hc : cachedPayload p env w.redis ("crypto:" ++ id) with
    | some payload =>
      have : getCrypto p env w id = (json payload, w) := by simp [getCrypto, hc]
      rw [this]; exact hinv
    | none =>
      rw [getCrypto_miss p env w id hc]
      cases hread : getCryptoById p env.dbReadError w.store id with
      | error err => exact hinv
      | ok found =>
        cases found with
        | none => exact hinv
        | some crypto =>
          obtain ⟨_, row, hrow, hid, hcrypto⟩ := getCryptoById_some p _ _ _ _ hread
          intro e he id2 hkey
          rcases cacheStore_entries p env w.redis _ crypto e he with hold | ⟨hk, hv⟩
          · exact hinv e hold id2 hkey
          · have hid2 : id = id2 := byId_key_injective id id2 (hk.symm.trans hkey)
            subst hid2
            exact ⟨⟨row, hrow, hid⟩, ⟨w, env.dbReadError, crypto, hreach, hread, hv⟩⟩
  | connection isOpen => exact hinv
  | drop keep =>
    intro e he id hkey
    exact hinv e (List.mem_filter.mp he).1 id hkey

theorem cacheInv_reachable (p : Platform) (w : World) (h : Reachable p w) : CacheInv p w := by
  induction h with
  | start isOpen store => intro e he; simp at he
  | step w w2 hreach hstep ih => exact cacheInv_step p w w2 hreach ih hstep

theorem lookup_mem (r : Redis) (now : Nat) (key text : String)
    (h : r.lookup now key = some text) :
    ∃ e, e ∈ r.entries ∧ e.key = key ∧ e.value = text := by
  unfold Redis.lookup at h
  cases hf : r.entries.find? (fun e => e.key == key && decide (now < e.expiresAt)) with
  | none => simp [hf] at h
  | some e =>
    rw [hf] at h
    simp only [Option.map_some', Option.some.injEq] at h
    have hp := List.find?_some hf
    simp only [Bool.and_eq_true, beq_iff_eq] at hp
    exact ⟨e, List.mem_of_find?_eq_some hf, hp.1, h⟩

/-- C18: in every state the back end reaches from an empty cache, an entry under key
`crypto:{id}` belongs to a row of the table with that id and holds the JSON
serialisation of a record that `getCryptoById` returned for that id in a reached state;
hence a by-id request served from the cache is for an id that has a row in the
table. -/
theorem byId_cache_invariant (p : Platform) (w : World) (hreach : Reachable p w) :
    (∀ e, e ∈ w.redis.entries → ∀ id, e.key = "crypto:" ++ id →
      (∃ row, row ∈ w.store ∧ row.id = id) ∧
      ∃ w0 failure crypto, Reachable p w0 ∧
        getCryptoById p failure w0.store id = .ok (some crypto) ∧
        e.value = p.stringify crypto) ∧
    (∀ env id payload, cachedPayload p env w.redis ("crypto:" ++ id) = some payload →
      (getCrypto p env w id).1 = { status := 200, body := payload } ∧
      ∃ row, row ∈ w.store ∧ row.id = id) := by
  have hinv := cacheInv_reachable p w hreach
  constructor
  · exact hinv
  · intro env id payload hhit
    refine ⟨by simp [getCrypto, hhit, json], ?_⟩
    obtain ⟨_, _, text, hl, _, _⟩ := cachedPayload_some p env w.redis _ payload hhit
    obtain ⟨e, he, hk, _⟩ := lookup_mem w.redis env.now _ text hl
    exact (hinv e he id hk).1

theorem reachable_after_byId :
    Reachable jsonPlatform (getCrypto jsonPlatform quietEnv bitcoinWorld "bitcoin").2 :=
  Reachable.step bitcoinWorld _ (Reachable.start true [bitcoinRow])
    (Step.byId quietEnv bitcoinWorld "bitcoin")

/-- C18 in the state reached from an empty cache and a table holding `bitcoinRow` by one
`GET /api/cryptos/bitcoin`: the cache holds an entry under `crypto:bitcoin`, and the
table has the row. -/
theorem byId_cache_invariant_witness :
    Reachable jsonPlatform (getCrypto jsonPlatform quietEnv bitcoinWorld "bitcoin").2 ∧
    (getCrypto jsonPlatform quietEnv bitcoinWorld "bitcoin").2.redis.entries =
      [{ key := "crypto:" ++ "bitcoin",
         value := jsonStringify (numericFields jsonPlatform bitcoinRow.toJS),
         expiresAt := 160 }] ∧
    (∃ row, row ∈ (getCrypto jsonPlatform quietEnv bitcoinWorld "bitcoin").2.store ∧
      row.id = "bitcoin") :=
  ⟨reachable_after_byId, rfl,
    ((byId_cache_invariant jsonPlatform _ reachable_after_byId).1
      { key := "crypto:" ++ "bitcoin",
        value := jsonStringify (numericFields jsonPlatform bitcoinRow.toJS),
        expiresAt := 160 }
      (List.Mem.head _) "bitcoin" rfl).1⟩

end CryptoTrack
